import Mathlib

/-!
Verification of the `trove` arena allocator (src/src/lib.rs).

The development shallowly embeds the Rust source. Reference-counted
sharing (`Rc<ArenaInner<T>>`) is modelled by a `Store` holding every
`ArenaInner` ever allocated; an `Rc` handle is an index into that store.
The thread-local id counter `IDS` is threaded explicitly as a `Nat`.
A `RefCell` borrow flag is modelled by `BorrowFlag`; guard drops are
explicit release operations. A Rust panic is the `Res.fatal` outcome,
a recoverable `Result::Err` is `Res.err`.
-/

namespace Trove

/-- const BASE: usize = 32 -/
def BASE : Nat := 32

/-- const NUM_ALLOCATIONS: usize = 32 -/
def NUM_ALLOCATIONS : Nat := 32

/-- Outcome of an operation: `ok` (the Rust return value), `err` (a
recoverable `Result::Err`), or `fatal` (a Rust panic). -/
inductive Res (ε : Type) (α : Type) where
  | ok (a : α)
  | err (e : ε)
  | fatal (msg : String)
deriving DecidableEq

/-- std::cell::BorrowError, returned by a failed `try_borrow`. -/
inductive BorrowErr where
  | borrowError
deriving DecidableEq

/-- std::cell::BorrowMutError, returned by a failed `try_borrow_mut`. -/
inductive BorrowMutErr where
  | borrowMutError
deriving DecidableEq

/-- The borrow flag of a `RefCell`: unborrowed, shared-borrowed by
`extra + 1` simultaneous `Ref`s, or exclusively borrowed by a `RefMut`. -/
inductive BorrowFlag where
  | free
  | reading (extra : Nat)
  | writing
deriving DecidableEq

/-- RefCell::try_borrow: succeeds unless exclusively borrowed,
incrementing the shared-borrow count. -/
def BorrowFlag.tryBorrow : BorrowFlag → Option BorrowFlag
  | .free => some (.reading 0)
  | .reading e => some (.reading (e + 1))
  | .writing => none

/-- RefCell::try_borrow_mut: succeeds only on an unborrowed cell. -/
def BorrowFlag.tryBorrowMut : BorrowFlag → Option BorrowFlag
  | .free => some .writing
  | .reading _ => none
  | .writing => none

/-- Drop of a `Ref` guard: decrement the shared-borrow count. The
catch-all branches are unreachable while a `Ref` is alive. -/
def BorrowFlag.releaseShared : BorrowFlag → BorrowFlag
  | .reading 0 => .free
  | .reading (e + 1) => .reading e
  | f => f

/-- Drop of a `RefMut` guard: clear the exclusive borrow. The catch-all
branches are unreachable while a `RefMut` is alive. -/
def BorrowFlag.releaseMut : BorrowFlag → BorrowFlag
  | .writing => .free
  | f => f

/-- One `RefCell<T>` inside a bucket: a stored value plus its borrow flag. -/
structure Slot (T : Type) where
  val : T
  flag : BorrowFlag
deriving DecidableEq

/-- Binary recursion computing the floor of log2 (the first argument is
fuel that dominates the actual recursion depth). -/
def floorLog2Aux : Nat → Nat → Nat
  | 0, _ => 0
  | fuel + 1, n => if n ≥ 2 then floorLog2Aux fuel (n / 2) + 1 else 0

/-- Position of the highest set bit of `n` (for `n ≥ 1`), i.e. the Rust
expression `USIZE_BITS - n.leading_zeros() - 1`. -/
def floorLog2 (n : Nat) : Nat := floorLog2Aux n n

/-- ArenaInner<T>: the 32 bucket rows (`rows: [Vec<RefCell<T>>; 32]`)
plus the number of slots appended so far (`len`). -/
structure ArenaInner (T : Type) where
  rows : List (List (Slot T))
  len : Nat
deriving DecidableEq

/-- ArenaInner::index: maps a linear offset to a (row, column) bucket
address. `let j = i / BASE + 1; let row = USIZE_BITS - j.leading_zeros()
- 1; (row, i - (2^row - 1) * BASE)`. -/
def ArenaInner.index (i : Nat) : Nat × Nat :=
  let j := i / BASE + 1
  let row := floorLog2 j
  (row, i - (2 ^ row - 1) * BASE)

/-- Default::default() for ArenaInner: 32 empty rows, length 0. -/
def ArenaInner.mkDefault {T : Type} : ArenaInner T :=
  { rows := List.replicate NUM_ALLOCATIONS [], len := 0 }

/-- The slot stored at linear offset `off` (the read `rows[row][col]`),
as an `Option` in place of the panicking `Vec` indexing. -/
def ArenaInner.slotAt {T : Type} (inner : ArenaInner T) (off : Nat) :
    Option (Slot T) :=
  let row := (ArenaInner.index off).1
  let col := (ArenaInner.index off).2
  (inner.rows.getD row []).get? col

/-- Overwrite the slot stored at linear offset `off` (the write through
`rows[row][col]`). -/
def ArenaInner.setSlotAt {T : Type} (inner : ArenaInner T) (off : Nat)
    (s : Slot T) : ArenaInner T :=
  let row := (ArenaInner.index off).1
  let col := (ArenaInner.index off).2
  { inner with rows := inner.rows.set row ((inner.rows.getD row []).set col s) }

/-- ArenaInner::try_get: bounds check (panicking), then
`rows[row][col].try_borrow()`. On success the shared borrow is acquired
and the value behind the returned `Ref` is reported. -/
def ArenaInner.tryGet {T : Type} (inner : ArenaInner T) (offset : Nat) :
    Res BorrowErr (T × ArenaInner T) :=
  if offset ≥ inner.len then .fatal "Index out of bounds"
  else
    match inner.slotAt offset with
    | none => .fatal "row index out of bounds"
    | some s =>
      match s.flag.tryBorrow with
      | none => .err .borrowError
      | some f => .ok (s.val, inner.setSlotAt offset { s with flag := f })

/-- ArenaInner::try_get_mut: bounds check (panicking), then
`rows[row][col].try_borrow_mut()`. On success the exclusive borrow is
acquired and the value behind the returned `RefMut` is reported. -/
def ArenaInner.tryGetMut {T : Type} (inner : ArenaInner T) (offset : Nat) :
    Res BorrowMutErr (T × ArenaInner T) :=
  if offset ≥ inner.len then .fatal "Index out of bounds"
  else
    match inner.slotAt offset with
    | none => .fatal "row index out of bounds"
    | some s =>
      match s.flag.tryBorrowMut with
      | none => .err .borrowMutError
      | some f => .ok (s.val, inner.setSlotAt offset { s with flag := f })

/-- A reference into the arena: `ArenaIdx { arena: generation id,
offset: linear offset }`. -/
structure ArenaIdx where
  arena : Nat
  offset : Nat
deriving DecidableEq

/-- ArenaInner::append: computes the bucket address of slot `len`,
panics above row 31, starts a fresh row when `col == 0`
(`Vec::with_capacity`; capacities are not observable and not modelled),
pushes the value with a `Free` flag and increments `len`. -/
def ArenaInner.append {T : Type} (inner : ArenaInner T) (id : Nat) (t : T) :
    Res Empty (ArenaIdx × ArenaInner T) :=
  let i := inner.len
  let row := (ArenaInner.index i).1
  if row > 31 then .fatal "Arena out of space!"
  else
    let rows1 := if (ArenaInner.index i).2 = 0 then inner.rows.set row []
      else inner.rows
    let rows2 := rows1.set row ((rows1.getD row []) ++ [{ val := t, flag := .free }])
    .ok ({ arena := id, offset := i }, { rows := rows2, len := inner.len + 1 })

/-- The heap of reference-counted `ArenaInner`s; an `Rc<ArenaInner<T>>`
is an index into `inners`. Entries are never removed (the claims never
drop the last owner of a generation). -/
structure Store (T : Type) where
  inners : List (ArenaInner T)
deriving DecidableEq

/-- Dereference an `Rc` handle. -/
def Store.getInner? {T : Type} (st : Store T) (h : Nat) : Option (ArenaInner T) :=
  st.inners.get? h

/-- Write back through an `Rc` handle (interior mutation of the shared
`ArenaInner`). -/
def Store.setInner {T : Type} (st : Store T) (h : Nat) (inner : ArenaInner T) :
    Store T :=
  { inners := st.inners.set h inner }

/-- Allocate a fresh `Rc<ArenaInner<T>>`, returning its handle. -/
def Store.alloc {T : Type} (st : Store T) (inner : ArenaInner T) :
    Nat × Store T :=
  (st.inners.length, { inners := st.inners ++ [inner] })

/-- VecMap<Rc<ArenaInner<T>>>: a map from generation id to `Rc` handle. -/
abbrev GenMap : Type := Nat → Option Nat

/-- VecMap::new(). -/
def GenMap.empty : GenMap := fun _ => none

/-- VecMap::insert (overwrites an existing entry). -/
def GenMap.insert (m : GenMap) (k v : Nat) : GenMap :=
  fun x => if x = k then some v else m x

/-- Arena<T>: the current generation id (`id: RefCell<usize>`) and the
lineage map (`arenas: UnsafeCell<VecMap<Rc<ArenaInner<T>>>>`). -/
structure Arena where
  id : Nat
  arenas : GenMap

/-- fn new_id(): read the thread-local counter, then increment it. -/
def newId (ctr : Nat) : Nat × Nat := (ctr, ctr + 1)

/-- Arena::new / Arena::default: mint one id and map it to a fresh
default `ArenaInner`. -/
def Arena.new (T : Type) (st : Store T) (ctr : Nat) : Arena × Store T × Nat :=
  let (id, ctr1) := newId ctr
  let (h, st1) := st.alloc ArenaInner.mkDefault
  ({ id := id, arenas := GenMap.insert GenMap.empty id h }, st1, ctr1)

/-- Arena::clone (fork): mints two fresh ids, inserts two fresh empty
generations into the map held by `self`, repoints `self` at the first fresh id and
returns a sibling holding a clone of the (now extended) map and the
second fresh id. The first component is the mutated `self`. -/
def Arena.clone {T : Type} (st : Store T) (ctr : Nat) (a : Arena) :
    (Arena × Arena) × Store T × Nat :=
  let (newIdA, ctr1) := newId ctr
  let (newIdB, ctr2) := newId ctr1
  let (hA, st1) := st.alloc (ArenaInner.mkDefault : ArenaInner T)
  let (hB, st2) := st1.alloc (ArenaInner.mkDefault : ArenaInner T)
  let m := GenMap.insert (GenMap.insert a.arenas newIdA hA) newIdB hB
  (({ id := newIdA, arenas := m }, { id := newIdB, arenas := m }), st2, ctr2)

/-- Arena::merge: a fresh id, and a map extended first with all entries
of `a` and then with all entries of `b` (later inserts overwrite, so
`b` wins on a common key). The heap is read, never written. -/
def Arena.merge {T : Type} (st : Store T) (a b : Arena) (ctr : Nat) :
    Arena × Store T × Nat :=
  let (newIdC, ctr1) := newId ctr
  let m : GenMap := fun k =>
    match b.arenas k with
    | some h => some h
    | none => a.arenas k
  ({ id := newIdC, arenas := m }, st, ctr1)

/-- Arena::try_get: look up the generation of the index in the lineage map
(`.expect("Invalid arena_idx")` panics when absent), dereference the
`Rc` handle and delegate to `ArenaInner::try_get`. -/
def Arena.tryGet {T : Type} (st : Store T) (a : Arena) (idx : ArenaIdx) :
    Res BorrowErr T × Store T :=
  match a.arenas idx.arena with
  | none => (.fatal "Invalid arena_idx", st)
  | some h =>
    match st.getInner? h with
    | none => (.fatal "dangling generation handle", st)
    | some inner =>
      match inner.tryGet idx.offset with
      | .fatal m => (.fatal m, st)
      | .err e => (.err e, st)
      | .ok (v, inner1) => (.ok v, st.setInner h inner1)

/-- The `arena_idx.arena == id` branch of Arena::try_get_mut: look the
up the generation of the index and delegate to `ArenaInner::try_get_mut`. -/
def Arena.tryGetMutHere {T : Type} (st : Store T) (a : Arena) (idx : ArenaIdx) :
    Res BorrowMutErr T × Store T :=
  match a.arenas idx.arena with
  | none => (.fatal "Invalid arena_idx", st)
  | some h =>
    match st.getInner? h with
    | none => (.fatal "dangling generation handle", st)
    | some inner =>
      match inner.tryGetMut idx.offset with
      | .fatal m => (.fatal m, st)
      | .err e => (.err e, st)
      | .ok (v, inner1) => (.ok v, st.setInner h inner1)

/-- Arena::append: delegates to `ArenaInner::append` on the current
generation. -/
def Arena.append {T : Type} (st : Store T) (a : Arena) (t : T) :
    Res Empty ArenaIdx × Store T :=
  match a.arenas a.id with
  | none => (.fatal "Invalid arena_idx", st)
  | some h =>
    match st.getInner? h with
    | none => (.fatal "dangling generation handle", st)
    | some inner =>
      match inner.append a.id t with
      | .fatal m => (.fatal m, st)
      | .err e => e.elim
      | .ok (idx, inner1) => (.ok idx, st.setInner h inner1)

/-- Apply a borrow-flag transition to the slot a live guard points at
(drops and the spec-modelled guard conversions act through this). -/
def Arena.updateFlagAt {T : Type} (st : Store T) (a : Arena) (idx : ArenaIdx)
    (g : BorrowFlag → BorrowFlag) : Store T :=
  match a.arenas idx.arena with
  | none => st
  | some h =>
    match st.getInner? h with
    | none => st
    | some inner =>
      match inner.slotAt idx.offset with
      | none => st
      | some s => st.setInner h (inner.setSlotAt idx.offset { s with flag := g s.flag })

/-- Drop of the temporary `Ref` produced by `try_get` inside the
copy-on-write path (end of the `let t = ...clone();` statement). -/
def Arena.releaseSharedAt {T : Type} (st : Store T) (a : Arena) (idx : ArenaIdx) :
    Store T :=
  Arena.updateFlagAt st a idx BorrowFlag.releaseShared

/-- Drop of an `ArenaRefMut` guard standing at `idx`. -/
def Arena.dropMutAt {T : Type} (st : Store T) (a : Arena) (idx : ArenaIdx) :
    Store T :=
  Arena.updateFlagAt st a idx BorrowFlag.releaseMut

/-- Write through a live `ArenaRefMut` guard (`*guard = v` via
`DerefMut`). -/
def Arena.writeAt {T : Type} (st : Store T) (a : Arena) (idx : ArenaIdx) (v : T) :
    Store T :=
  match a.arenas idx.arena with
  | none => st
  | some h =>
    match st.getInner? h with
    | none => st
    | some inner =>
      match inner.slotAt idx.offset with
      | none => st
      | some s => st.setInner h (inner.setSlotAt idx.offset { s with val := v })

/-- Arena::try_get_mut with explicit recursion fuel. The source
recurses after the copy-on-write promotion; the promoted index targets
the current generation, so the recursion depth is at most one and any
fuel of at least two is exact. The index component models the in-place
rewrite of the `&mut ArenaIdx` held by the caller. -/
def Arena.tryGetMutFuel {T : Type} :
    Nat → Store T → Arena → ArenaIdx →
    Res (Sum BorrowMutErr BorrowErr) T × ArenaIdx × Store T
  | 0, st, _, idx => (.fatal "copy-on-write recursion bound exceeded", idx, st)
  | fuel + 1, st, a, idx =>
    if idx.arena = a.id then
      match Arena.tryGetMutHere st a idx with
      | (.ok v, st1) => (.ok v, idx, st1)
      | (.err e, st1) => (.err (Sum.inl e), idx, st1)
      | (.fatal m, st1) => (.fatal m, idx, st1)
    else
      match Arena.tryGet st a idx with
      | (.err e, st1) => (.err (Sum.inr e), idx, st1)
      | (.fatal m, st1) => (.fatal m, idx, st1)
      | (.ok t, st1) =>
        let st2 := Arena.releaseSharedAt st1 a idx
        match Arena.append st2 a t with
        | (.fatal m, st3) => (.fatal m, idx, st3)
        | (.err e, _) => e.elim
        | (.ok idx2, st3) => Arena.tryGetMutFuel fuel st3 a idx2

/-- Arena::try_get_mut: the current-generation fast path, or
copy-on-write promotion (read and clone the foreign value, append the
clone into the current generation, rewrite the index of the caller, retry). -/
def Arena.tryGetMut {T : Type} (st : Store T) (a : Arena) (idx : ArenaIdx) :
    Res (Sum BorrowMutErr BorrowErr) T × ArenaIdx × Store T :=
  Arena.tryGetMutFuel 2 st a idx

/-- Observation: the slot `idx` resolves to through arena `a` (`none`
when the generation is unknown, the handle dangles, or the offset is out
of bounds). -/
def Arena.slotAt {T : Type} (st : Store T) (a : Arena) (idx : ArenaIdx) :
    Option (Slot T) :=
  match a.arenas idx.arena with
  | none => none
  | some h =>
    match st.getInner? h with
    | none => none
    | some inner =>
      if idx.offset < inner.len then inner.slotAt idx.offset else none

/-- Observation: the value stored in the slot `idx` resolves to. -/
def Arena.valAt {T : Type} (st : Store T) (a : Arena) (idx : ArenaIdx) :
    Option T :=
  (Arena.slotAt st a idx).map Slot.val

/-- Observation: the borrow flag of the slot `idx` resolves to. -/
def Arena.flagAt {T : Type} (st : Store T) (a : Arena) (idx : ArenaIdx) :
    Option BorrowFlag :=
  (Arena.slotAt st a idx).map Slot.flag

/-- Observation: the length of the generation `k` of arena `a`. -/
def Arena.lenOf {T : Type} (st : Store T) (a : Arena) (k : Nat) : Option Nat :=
  match a.arenas k with
  | none => none
  | some h => (st.getInner? h).map ArenaInner.len

/-- Modelled from the spec: `ArenaRefMut::downgrade` is absent from
src/src/lib.rs (the included variant only implements Deref and DerefMut
on the guard); per the spec an exclusive guard may be downgraded into a
shared guard, transitioning the slot Exclusive → Shared(1) (here
`BorrowFlag.reading 0`, i.e. one shared borrower). -/
def Arena.downgrade {T : Type} (st : Store T) (a : Arena) (idx : ArenaIdx) :
    Store T :=
  Arena.updateFlagAt st a idx (fun _ => .reading 0)

/-- Modelled from the spec: `ArenaRefMut::into_owned` is absent from
src/src/lib.rs; per the spec an exclusive guard may be collapsed into a
bare `ArenaIdx`, discarding the borrow state and resetting the slot to
Free. -/
def Arena.intoOwned {T : Type} (st : Store T) (a : Arena) (idx : ArenaIdx) :
    ArenaIdx × Store T :=
  (idx, Arena.updateFlagAt st a idx (fun _ => .free))

/-- First linear offset of bucket `r`: `(2^r - 1) * BASE`. -/
def bucketStart (r : Nat) : Nat := (2 ^ r - 1) * BASE

/-- Capacity of bucket `r`: `BASE << r`. -/
def bucketCap (r : Nat) : Nat := BASE * 2 ^ r

/-- Number of slots of bucket `r` in use when `len` slots exist. -/
def rowFill (len r : Nat) : Nat := min (len - bucketStart r) (bucketCap r)

/-- The representation invariant of `ArenaInner` maintained by the Rust
code: 32 rows, each row filled exactly as the bucket schedule dictates,
and the total length within the 32-bucket ceiling. -/
def ArenaInner.WF {T : Type} (inner : ArenaInner T) : Prop :=
  inner.rows.length = NUM_ALLOCATIONS ∧
  inner.len ≤ bucketStart NUM_ALLOCATIONS ∧
  ∀ r, r < NUM_ALLOCATIONS → (inner.rows.getD r []).length = rowFill inner.len r

instance {T : Type} (inner : ArenaInner T) : Decidable inner.WF := by
  unfold ArenaInner.WF; infer_instance

/-- Every `ArenaInner` in the heap satisfies the representation
invariant. -/
def Store.WF {T : Type} (st : Store T) : Prop :=
  ∀ inner ∈ st.inners, inner.WF

instance {T : Type} (st : Store T) : Decidable st.WF := by
  unfold Store.WF; infer_instance

namespace Ex

/-- Concrete example run: the empty heap. -/
def st0 : Store Nat := { inners := [] }

/-- Concrete example run: a fresh arena (generation id 0, handle 0). -/
def a0 : Arena := (Arena.new Nat st0 0).1

/-- Heap after creating `a0`. -/
def st1 : Store Nat := (Arena.new Nat st0 0).2.1

/-- Heap after `a0.append(13)` (the index minted is `⟨0, 0⟩`). -/
def st2 : Store Nat := (Arena.append st1 a0 13).2

/-- Fork of `a0` after the append (ids 1 and 2 are minted, handles 1
and 2 allocated). -/
def forkRes := Arena.clone st2 1 a0

/-- The mutated original arena after the fork (current generation 1). -/
def aA : Arena := forkRes.1.1

/-- The sibling returned by the fork (current generation 2). -/
def aB : Arena := forkRes.1.2

/-- Heap after the fork. -/
def st3 : Store Nat := forkRes.2.1

/-- Result of the copy-on-write `try_get_mut` of index `⟨0, 0⟩` through
sibling `aA` after the fork. -/
def cow := Arena.tryGetMut st3 aA ⟨0, 0⟩

/-- Heap after the copy-on-write promotion (exclusive guard alive at
the promoted index `⟨1, 0⟩`). -/
def st4 : Store Nat := cow.2.2

/-- Result of acquiring an exclusive guard on `⟨0, 0⟩` in the
single-arena run (no fork). -/
def g1 := Arena.tryGetMut st2 a0 ⟨0, 0⟩

/-- Heap with the exclusive guard of `g1` alive. -/
def stBusy : Store Nat := g1.2.2

/-- A second, independent arena (generation id 5, handle 1) created in
the heap that already holds the generation of `a0`. -/
def mkB := Arena.new Nat st2 5

/-- The independent arena B. -/
def bA : Arena := mkB.1

/-- Heap holding the generations of both `a0` and `bA`. -/
def stB : Store Nat := mkB.2.1

/-- Heap after `bA.append(99)` (the index minted is `⟨5, 0⟩`). -/
def stB2 : Store Nat := (Arena.append stB bA 99).2

/-- The merge of `a0` and `bA`. -/
def mergeRes := Arena.merge stB2 a0 bA 10

/-- Heap after appending value 7 through sibling `aA` after the fork
(the index minted is `⟨1, 0⟩`). -/
def app7 := Arena.append st3 aA 7

end Ex

end Trove

namespace Trove

/-- Reading a set element back at the written position. -/
theorem get?_set_self {α : Type} {l : List α} {i : Nat} {x : α}
    (h : i < l.length) : (l.set i x).get? i = some x := by
  induction l generalizing i with
  | nil => simp at h
  | cons y ys ih =>
    cases i with
    | zero => rfl
    | succ j => exact ih (by simpa using h)

/-- Setting one position leaves every other position unchanged. -/
theorem get?_set_other {α : Type} {l : List α} {i j : Nat} {x : α}
    (h : i ≠ j) : (l.set i x).get? j = l.get? j := by
  induction l generalizing i j with
  | nil => rfl
  | cons y ys ih =>
    cases i with
    | zero =>
      cases j with
      | zero => exact absurd rfl h
      | succ j2 => rfl
    | succ i2 =>
      cases j with
      | zero => rfl
      | succ j2 => exact ih (by omega)

/-- Reading inside the left part of an appended list. -/
theorem get?_append_lt {α : Type} {l l' : List α} {i : Nat}
    (h : i < l.length) : (l ++ l').get? i = l.get? i := by
  induction l generalizing i with
  | nil => simp at h
  | cons y ys ih =>
    cases i with
    | zero => rfl
    | succ j => exact ih (by simpa using h)

/-- Reading the pushed element of a one-element append. -/
theorem get?_concat_self {α : Type} (l : List α) (x : α) :
    (l ++ [x]).get? l.length = some x := by
  induction l with
  | nil => rfl
  | cons y ys ih => exact ih

/-- A successful lookup is in bounds. -/
theorem lt_of_get?_some {α : Type} {l : List α} {i : Nat} {x : α}
    (h : l.get? i = some x) : i < l.length := by
  by_contra hc
  rw [List.get?_eq_none.mpr (Nat.le_of_not_lt hc)] at h
  cases h

/-- Writing back exactly what a position holds is the identity. -/
theorem set_get?_self {α : Type} {l : List α} {i : Nat} {x : α}
    (h : l.get? i = some x) : l.set i x = l := by
  induction l generalizing i with
  | nil => cases h
  | cons y ys ih =>
    cases i with
    | zero =>
      have hy : y = x := by injection h
      rw [List.set_cons_zero, hy]
    | succ j =>
      rw [List.set_cons_succ, ih h]

/-- `getD` agrees with a successful lookup. -/
theorem getD_eq_of_get? {α : Type} {l : List α} {i : Nat} {x : α} (d : α)
    (h : l.get? i = some x) : l.getD i d = x := by
  rw [List.getD_eq_getD_get?, h]; rfl

/-- `getD` falls back to the default on a failed lookup. -/
theorem getD_get?_none {α : Type} {l : List α} {i : Nat} (d : α)
    (h : l.get? i = none) : l.getD i d = d := by
  rw [List.getD_eq_getD_get?, h]; rfl

/-- Every row of the freshly replicated row array is empty. -/
theorem getD_replicate_nil {α : Type} (n r : Nat) :
    (List.replicate n ([] : List α)).getD r [] = [] := by
  rw [List.getD_eq_getD_get?]
  induction n generalizing r with
  | zero => rfl
  | succ m ih =>
    cases r with
    | zero => rfl
    | succ j => exact ih j

/-- `getD` after an in-bounds set, at the written position. -/
theorem getD_set_self {α : Type} {l : List α} {i : Nat} (x d : α)
    (h : i < l.length) : (l.set i x).getD i d = x :=
  getD_eq_of_get? d (get?_set_self h)

/-- `getD` after a set, at any other position. -/
theorem getD_set_other {α : Type} {l : List α} {i j : Nat} (x d : α)
    (h : i ≠ j) : (l.set i x).getD j d = l.getD j d := by
  rw [List.getD_eq_getD_get?, get?_set_other h, ← List.getD_eq_getD_get?]

/-- A successful nested lookup puts the outer index in bounds. -/
theorem getD_some_lt {α : Type} {l : List (List α)} {r c : Nat} {x : α}
    (h : (l.getD r []).get? c = some x) : r < l.length := by
  by_contra hc
  have hr : l.get? r = none := List.get?_eq_none.mpr (Nat.le_of_not_lt hc)
  rw [getD_get?_none _ hr] at h
  cases h

/-- A successful lookup yields a member. -/
theorem mem_of_get? {α : Type} {l : List α} {i : Nat} {x : α}
    (h : l.get? i = some x) : x ∈ l := List.get?_mem h

/-- Membership after a set comes from the old list or the new element. -/
theorem mem_of_mem_set {α : Type} {l : List α} {i : Nat} {x y : α}
    (h : y ∈ l.set i x) : y ∈ l ∨ y = x := List.mem_or_eq_of_mem_set h

end Trove

namespace Trove

/-- Correctness of the binary log2 recursion: enough fuel pins `n`
between consecutive powers of two. -/
theorem floorLog2Aux_spec : ∀ (fuel n : Nat), 1 ≤ n → n ≤ fuel →
    2 ^ floorLog2Aux fuel n ≤ n ∧ n < 2 ^ (floorLog2Aux fuel n + 1) := by
  intro fuel
  induction fuel with
  | zero => intro n h1 h2; omega
  | succ f ih =>
    intro n h1 h2
    by_cases hn : n ≥ 2
    · have hrec := ih (n / 2) (by omega) (by omega)
      set r := floorLog2Aux f (n / 2) with hr
      have hstep : floorLog2Aux (f + 1) n = r + 1 := by
        simp [floorLog2Aux, hn]
      rw [hstep]
      have hp1 : 2 ^ (r + 1) = 2 * 2 ^ r := by ring
      have hp2 : 2 ^ (r + 1 + 1) = 2 * 2 ^ (r + 1) := by ring
      constructor
      · calc 2 ^ (r + 1) = 2 * 2 ^ r := hp1
          _ ≤ 2 * (n / 2) := by omega
          _ ≤ n := by omega
      · have h3 : n / 2 < 2 ^ (r + 1) := hrec.2
        omega
    · have hn1 : n = 1 := by omega
      subst hn1
      simp [floorLog2Aux]

/-- `floorLog2 n` is the floor of log2 for positive `n`. -/
theorem floorLog2_spec (n : Nat) (h : 1 ≤ n) :
    2 ^ floorLog2 n ≤ n ∧ n < 2 ^ (floorLog2 n + 1) :=
  floorLog2Aux_spec n n h (Nat.le_refl n)

/-- Uniqueness of the floor of log2. -/
theorem floorLog2_eq {n k : Nat} (h1 : 2 ^ k ≤ n) (h2 : n < 2 ^ (k + 1)) :
    floorLog2 n = k := by
  have hn : 1 ≤ n := le_trans (Nat.one_le_two_pow) h1
  have hs := floorLog2_spec n hn
  set r := floorLog2 n with hr
  by_contra hne
  rcases Nat.lt_or_ge r k with hlt | hge
  · have : 2 ^ (r + 1) ≤ 2 ^ k := Nat.pow_le_pow_right (by omega) (by omega)
    omega
  · have hkr : k < r := by omega
    have : 2 ^ (k + 1) ≤ 2 ^ r := Nat.pow_le_pow_right (by omega) (by omega)
    omega

/-- The bucket schedule is contiguous: the next bucket starts where the
previous one ends. -/
theorem bucketStart_succ (r : Nat) :
    bucketStart (r + 1) = bucketStart r + bucketCap r := by
  have h1 : (1 : Nat) ≤ 2 ^ r := Nat.one_le_two_pow
  have hp : 2 ^ (r + 1) = 2 * 2 ^ r := by ring
  unfold bucketStart bucketCap BASE
  rw [hp]
  have h2 : 2 * 2 ^ r - 1 = (2 ^ r - 1) + 2 ^ r := by omega
  rw [h2]
  ring

/-- Bucket start offsets are monotone. -/
theorem bucketStart_mono {r r' : Nat} (h : r ≤ r') :
    bucketStart r ≤ bucketStart r' := by
  have h1 : 2 ^ r ≤ 2 ^ r' := Nat.pow_le_pow_right (by omega) h
  unfold bucketStart
  exact Nat.mul_le_mul_right BASE (by omega)

/-- The index function on the offset range of bucket `k`. -/
theorem index_spec {k i : Nat} (h1 : bucketStart k ≤ i)
    (h2 : i < bucketStart (k + 1)) :
    ArenaInner.index i = (k, i - bucketStart k) := by
  have hone : (1 : Nat) ≤ 2 ^ k := Nat.one_le_two_pow
  have h32 : (0 : Nat) < BASE := by decide
  have hlow : 2 ^ k ≤ i / BASE + 1 := by
    have ha : (2 ^ k - 1) * BASE ≤ i := h1
    have hb := (Nat.le_div_iff_mul_le h32).mpr ha
    omega
  have hhigh : i / BASE + 1 < 2 ^ (k + 1) := by
    have hone1 : (1 : Nat) ≤ 2 ^ (k + 1) := Nat.one_le_two_pow
    have ha : i < (2 ^ (k + 1) - 1) * BASE := h2
    have hb := (Nat.div_lt_iff_lt_mul h32).mpr ha
    omega
  have hlog : floorLog2 (i / BASE + 1) = k := floorLog2_eq hlow hhigh
  simp only [ArenaInner.index]
  rw [hlog]
  rfl

/-- Every offset lies inside the bucket its row component names. -/
theorem index_fst_range (i : Nat) :
    bucketStart (ArenaInner.index i).1 ≤ i ∧
    i < bucketStart ((ArenaInner.index i).1 + 1) := by
  have hone : 1 ≤ i / BASE + 1 := Nat.succ_le_succ (Nat.zero_le _)
  have hs := floorLog2_spec (i / BASE + 1) hone
  have hfst : (ArenaInner.index i).1 = floorLog2 (i / BASE + 1) := rfl
  set r := floorLog2 (i / BASE + 1) with hr
  have h32 : (0 : Nat) < BASE := by decide
  have hone2 : (1 : Nat) ≤ 2 ^ r := Nat.one_le_two_pow
  have hone3 : (1 : Nat) ≤ 2 ^ (r + 1) := Nat.one_le_two_pow
  constructor
  · rw [hfst]
    show (2 ^ r - 1) * BASE ≤ i
    have ha : 2 ^ r - 1 ≤ i / BASE := by omega
    exact (Nat.le_div_iff_mul_le h32).mp ha
  · rw [hfst]
    show i < (2 ^ (r + 1) - 1) * BASE
    have ha : i / BASE < 2 ^ (r + 1) - 1 := by omega
    exact (Nat.div_lt_iff_lt_mul h32).mp ha

/-- The column component is the offset within the bucket. -/
theorem index_snd (i : Nat) :
    (ArenaInner.index i).2 = i - bucketStart (ArenaInner.index i).1 := rfl

/-- The index function is monotone in lexicographic bucket order. -/
theorem index_mono {i j : Nat} (h : i < j) :
    (ArenaInner.index i).1 < (ArenaInner.index j).1 ∨
    ((ArenaInner.index i).1 = (ArenaInner.index j).1 ∧
     (ArenaInner.index i).2 < (ArenaInner.index j).2) := by
  have hi := index_fst_range i
  have hj := index_fst_range j
  rcases Nat.lt_or_ge (ArenaInner.index i).1 (ArenaInner.index j).1 with hlt | hge
  · exact Or.inl hlt
  · right
    have heq : (ArenaInner.index i).1 = (ArenaInner.index j).1 := by
      by_contra hne
      have hstep : (ArenaInner.index j).1 + 1 ≤ (ArenaInner.index i).1 := by omega
      have hmono := bucketStart_mono hstep
      omega
    refine ⟨heq, ?_⟩
    rw [index_snd, index_snd, heq]
    rw [heq] at hi
    omega

/-- Distinct offsets live at distinct bucket addresses. -/
theorem index_inj {i j : Nat} (h : ArenaInner.index i = ArenaInner.index j) :
    i = j := by
  by_contra hne
  rcases Nat.lt_or_ge i j with hlt | hge
  · rcases index_mono hlt with h1 | h1
    · rw [h] at h1; omega
    · rw [h] at h1; omega
  · have hlt : j < i := by omega
    rcases index_mono hlt with h1 | h1
    · rw [h] at h1; omega
    · rw [h] at h1; omega

/-- The bucket the next append lands in is filled exactly up to the
column of the append. -/
theorem rowFill_at_self (len : Nat) :
    rowFill len (ArenaInner.index len).1 = (ArenaInner.index len).2 ∧
    (ArenaInner.index len).2 < bucketCap (ArenaInner.index len).1 := by
  have hr := index_fst_range len
  have hsucc := bucketStart_succ (ArenaInner.index len).1
  rw [index_snd]
  unfold rowFill
  omega

/-- After an append the fill of the target bucket grows by one. -/
theorem rowFill_succ_self (len : Nat) :
    rowFill (len + 1) (ArenaInner.index len).1 = (ArenaInner.index len).2 + 1 := by
  have hr := index_fst_range len
  have hsucc := bucketStart_succ (ArenaInner.index len).1
  rw [index_snd]
  unfold rowFill
  omega

/-- After an append the fill of every other bucket is unchanged. -/
theorem rowFill_succ_other {len r : Nat} (h : r ≠ (ArenaInner.index len).1) :
    rowFill (len + 1) r = rowFill len r := by
  have hr := index_fst_range len
  rcases Nat.lt_or_ge r (ArenaInner.index len).1 with hlt | hge
  · have h1 : bucketStart (r + 1) ≤ bucketStart (ArenaInner.index len).1 :=
      bucketStart_mono (by omega)
    have hsucc := bucketStart_succ r
    unfold rowFill
    omega
  · have hgt : (ArenaInner.index len).1 < r := by omega
    have h1 : bucketStart ((ArenaInner.index len).1 + 1) ≤ bucketStart r :=
      bucketStart_mono (by omega)
    unfold rowFill
    omega

end Trove

namespace Trove

/-- An in-bounds position holds some element. -/
theorem get?_exists_of_lt {α : Type} {l : List α} {i : Nat}
    (h : i < l.length) : ∃ x, l.get? i = some x := by
  cases hx : l.get? i with
  | none => exact absurd (List.get?_eq_none.mp hx) (by omega)
  | some x => exact ⟨x, rfl⟩

/-- Writing a slot keeps the length of the generation. -/
theorem ArenaInner.setSlotAt_len {T : Type} (inner : ArenaInner T) (off : Nat)
    (s : Slot T) : (inner.setSlotAt off s).len = inner.len := rfl

/-- Writing past the row array is a no-op. -/
theorem ArenaInner.setSlotAt_oob {T : Type} {inner : ArenaInner T} {off : Nat}
    (s : Slot T) (h : inner.rows.length ≤ (ArenaInner.index off).1) :
    inner.setSlotAt off s = inner := by
  simp only [ArenaInner.setSlotAt]
  rw [List.set_eq_of_length_le h]

/-- Reading back a written slot. -/
theorem ArenaInner.slotAt_setSlotAt_self {T : Type} {inner : ArenaInner T}
    {off : Nat} {s0 : Slot T} (h : inner.slotAt off = some s0) (s : Slot T) :
    (inner.setSlotAt off s).slotAt off = some s := by
  have hrow : (ArenaInner.index off).1 < inner.rows.length := getD_some_lt h
  have hcol : (ArenaInner.index off).2 <
      (inner.rows.getD (ArenaInner.index off).1 []).length := lt_of_get?_some h
  simp only [ArenaInner.slotAt, ArenaInner.setSlotAt]
  rw [getD_set_self _ _ hrow]
  exact get?_set_self (by simpa using hcol)

/-- Writing one slot leaves the slot of every other offset unchanged. -/
theorem ArenaInner.slotAt_setSlotAt_other {T : Type} {inner : ArenaInner T}
    {off off' : Nat} (s : Slot T) (h : off ≠ off') :
    (inner.setSlotAt off s).slotAt off' = inner.slotAt off' := by
  have hne : ArenaInner.index off ≠ ArenaInner.index off' :=
    fun hc => h (index_inj hc)
  simp only [ArenaInner.slotAt, ArenaInner.setSlotAt]
  by_cases hrow : (ArenaInner.index off).1 = (ArenaInner.index off').1
  · have hcol : (ArenaInner.index off).2 ≠ (ArenaInner.index off').2 := by
      intro hc
      exact hne (Prod.ext hrow hc)
    by_cases hlt : (ArenaInner.index off).1 < inner.rows.length
    · rw [← hrow, getD_set_self _ _ hlt, get?_set_other hcol]
    · rw [List.set_eq_of_length_le (Nat.le_of_not_lt hlt)]
  · rw [getD_set_other _ _ hrow]

/-- Two writes to the same offset collapse to the second one. -/
theorem ArenaInner.setSlotAt_setSlotAt {T : Type} (inner : ArenaInner T)
    (off : Nat) (s1 s2 : Slot T) :
    (inner.setSlotAt off s1).setSlotAt off s2 = inner.setSlotAt off s2 := by
  by_cases hlt : (ArenaInner.index off).1 < inner.rows.length
  · simp only [ArenaInner.setSlotAt]
    rw [getD_set_self _ _ hlt, List.set_set, List.set_set]
  · rw [ArenaInner.setSlotAt_oob s1 (Nat.le_of_not_lt hlt)]

/-- Writing back the slot an offset already holds is the identity. -/
theorem ArenaInner.setSlotAt_self {T : Type} {inner : ArenaInner T} {off : Nat}
    {s : Slot T} (h : inner.slotAt off = some s) :
    inner.setSlotAt off s = inner := by
  have hrow : (ArenaInner.index off).1 < inner.rows.length := getD_some_lt h
  obtain ⟨rl, hrl⟩ := get?_exists_of_lt hrow
  have hgetD : inner.rows.getD (ArenaInner.index off).1 [] = rl :=
    getD_eq_of_get? _ hrl
  have hcol : rl.get? (ArenaInner.index off).2 = some s := by
    have := h
    simp only [ArenaInner.slotAt] at this
    rwa [hgetD] at this
  simp only [ArenaInner.setSlotAt]
  rw [hgetD, set_get?_self hcol, set_get?_self hrl]

/-- Store lookup after a write-back, same handle. -/
theorem Store.getInner?_setInner_self {T : Type} {st : Store T} {h : Nat}
    (inner : ArenaInner T) (hlt : h < st.inners.length) :
    (st.setInner h inner).getInner? h = some inner :=
  get?_set_self hlt

/-- Store lookup after a write-back, different handle. -/
theorem Store.getInner?_setInner_other {T : Type} (st : Store T) {h h' : Nat}
    (inner : ArenaInner T) (hne : h ≠ h') :
    (st.setInner h inner).getInner? h' = st.getInner? h' :=
  get?_set_other hne

/-- A dereferenceable handle is in bounds. -/
theorem Store.lt_of_getInner? {T : Type} {st : Store T} {h : Nat}
    {inner : ArenaInner T} (hg : st.getInner? h = some inner) :
    h < st.inners.length := lt_of_get?_some hg

/-- Two write-backs through the same handle collapse to the second. -/
theorem Store.setInner_setInner {T : Type} (st : Store T) (h : Nat)
    (i1 i2 : ArenaInner T) :
    (st.setInner h i1).setInner h i2 = st.setInner h i2 := by
  simp only [Store.setInner]
  rw [List.set_set]

/-- Writing back what a handle already holds is the identity. -/
theorem Store.setInner_self {T : Type} {st : Store T} {h : Nat}
    {inner : ArenaInner T} (hg : st.getInner? h = some inner) :
    st.setInner h inner = st := by
  simp only [Store.setInner]
  rw [set_get?_self hg]

/-- The store keeps its size under write-backs. -/
theorem Store.setInner_length {T : Type} (st : Store T) (h : Nat)
    (inner : ArenaInner T) :
    (st.setInner h inner).inners.length = st.inners.length := by
  simp [Store.setInner]

/-- Old handles still dereference identically after an allocation. -/
theorem Store.getInner?_alloc_old {T : Type} {st : Store T} {h : Nat}
    (inner : ArenaInner T) (hlt : h < st.inners.length) :
    (st.alloc inner).2.getInner? h = st.getInner? h := by
  simp only [Store.alloc, Store.getInner?]
  exact get?_append_lt hlt

/-- The fresh handle of an allocation dereferences to the allocated
generation. -/
theorem Store.getInner?_alloc_new {T : Type} (st : Store T)
    (inner : ArenaInner T) :
    (st.alloc inner).2.getInner? (st.alloc inner).1 = some inner := by
  simp only [Store.alloc, Store.getInner?]
  exact get?_concat_self _ _

end Trove

namespace Trove

/-- A default (freshly allocated) generation satisfies the invariant. -/
theorem ArenaInner.mkDefault_WF {T : Type} : (ArenaInner.mkDefault : ArenaInner T).WF := by
  refine ⟨by simp [ArenaInner.mkDefault], Nat.zero_le _, ?_⟩
  intro r hr
  show ((List.replicate NUM_ALLOCATIONS []).getD r []).length = rowFill 0 r
  rw [getD_replicate_nil]
  show 0 = rowFill 0 r
  unfold rowFill
  omega

/-- Overwriting a slot in place preserves the invariant. -/
theorem ArenaInner.WF_setSlotAt {T : Type} {inner : ArenaInner T} (hwf : inner.WF)
    (off : Nat) (s : Slot T) : (inner.setSlotAt off s).WF := by
  obtain ⟨h1, h2, h3⟩ := hwf
  refine ⟨?_, h2, ?_⟩
  · show (inner.rows.set _ _).length = _
    simpa using h1
  · intro r hr
    show ((inner.setSlotAt off s).rows.getD r []).length = rowFill inner.len r
    by_cases hrow : (ArenaInner.index off).1 = r
    · subst hrow
      by_cases hlt : (ArenaInner.index off).1 < inner.rows.length
      · show (((inner.rows.set _ _).getD _ [])).length = _
        rw [getD_set_self _ _ hlt]
        simp only [List.length_set]
        exact h3 _ hr
      · rw [ArenaInner.setSlotAt_oob s (Nat.le_of_not_lt hlt)]
        exact h3 _ hr
    · show (((inner.rows.set _ _).getD _ [])).length = _
      rw [getD_set_other _ _ hrow]
      exact h3 r hr

/-- Every dereferenced generation of a well-formed heap is well-formed. -/
theorem Store.WF_getInner {T : Type} {st : Store T} (hwf : st.WF) {h : Nat}
    {inner : ArenaInner T} (hg : st.getInner? h = some inner) : inner.WF :=
  hwf inner (mem_of_get? hg)

/-- Writing a well-formed generation back keeps the heap well-formed. -/
theorem Store.WF_setInner {T : Type} {st : Store T} (hwf : st.WF) (h : Nat)
    {inner : ArenaInner T} (hi : inner.WF) : (st.setInner h inner).WF := by
  intro x hx
  rcases mem_of_mem_set hx with h1 | h1
  · exact hwf x h1
  · rw [h1]; exact hi

/-- Allocating a well-formed generation keeps the heap well-formed. -/
theorem Store.WF_alloc {T : Type} {st : Store T} (hwf : st.WF)
    {inner : ArenaInner T} (hi : inner.WF) : (st.alloc inner).2.WF := by
  intro x hx
  simp only [Store.alloc] at hx
  rcases List.mem_append.mp hx with h1 | h1
  · exact hwf x h1
  · rw [List.mem_singleton.mp h1]; exact hi

/-- A successful inner append mints the next offset of the current
generation and grows the length by one. -/
theorem ArenaInner.append_ok_basic {T : Type} {inner : ArenaInner T} {id : Nat}
    {t : T} {idx : ArenaIdx} {inner' : ArenaInner T}
    (h : inner.append id t = .ok (idx, inner')) :
    idx = ⟨id, inner.len⟩ ∧ inner'.len = inner.len + 1 := by
  simp only [ArenaInner.append] at h
  split at h
  · cases h
  · injection h with h
    injection h with h1 h2
    exact ⟨h1.symm, by rw [← h2]⟩

/-- A successful inner append on a well-formed generation keeps it
well-formed, stores the value at the old length with a Free flag, and
leaves every earlier slot untouched. -/
theorem ArenaInner.append_ok_WF {T : Type} {inner : ArenaInner T} {id : Nat}
    {t : T} {idx : ArenaIdx} {inner' : ArenaInner T} (hwf : inner.WF)
    (h : inner.append id t = .ok (idx, inner')) :
    inner'.WF ∧ inner'.slotAt inner.len = some { val := t, flag := .free } ∧
    ∀ off, off < inner.len → inner'.slotAt off = inner.slotAt off := by
  obtain ⟨hlen32, hbound, hfill⟩ := hwf
  simp only [ArenaInner.append] at h
  split at h
  · cases h
  rename_i hrow31
  injection h with h
  injection h with h1 h2
  subst h2
  have hlt : (ArenaInner.index inner.len).1 < inner.rows.length := by
    rw [hlen32]; unfold NUM_ALLOCATIONS; omega
  have hr1 := index_fst_range inner.len
  have hfa := rowFill_at_self inner.len
  have hnextle : bucketStart ((ArenaInner.index inner.len).1 + 1) ≤
      bucketStart NUM_ALLOCATIONS :=
    bucketStart_mono (by unfold NUM_ALLOCATIONS; omega)
  by_cases hcol : (ArenaInner.index inner.len).2 = 0
  · simp only [if_pos hcol] at *
    rw [getD_set_self _ _ hlt, List.set_set, List.nil_append]
    refine ⟨⟨by simpa using hlen32,
        by show inner.len + 1 ≤ bucketStart NUM_ALLOCATIONS; omega, ?_⟩, ?_, ?_⟩
    · intro r hr
      show (((inner.rows.set _ _).getD r [])).length = rowFill (inner.len + 1) r
      by_cases hrw : (ArenaInner.index inner.len).1 = r
      · subst hrw
        rw [getD_set_self _ _ hlt, rowFill_succ_self, hcol]
        rfl
      · rw [getD_set_other _ _ hrw, rowFill_succ_other (fun hc => hrw hc.symm)]
        exact hfill r hr
    · show (((inner.rows.set _ _).getD _ [])).get? _ = _
      rw [getD_set_self _ _ hlt, hcol]
      rfl
    · intro off hoff
      rcases index_mono hoff with hm | hm
      · show (((inner.rows.set _ _).getD _ [])).get? _ = _
        rw [getD_set_other _ _ (by omega)]
        rfl
      · omega
  · simp only [if_neg hcol] at *
    have hold : (inner.rows.getD (ArenaInner.index inner.len).1 []).length =
        (ArenaInner.index inner.len).2 := by
      rw [hfill _ (by rw [← hlen32]; exact hlt)]
      exact hfa.1
    refine ⟨⟨by simpa using hlen32,
        by show inner.len + 1 ≤ bucketStart NUM_ALLOCATIONS; omega, ?_⟩, ?_, ?_⟩
    · intro r hr
      show (((inner.rows.set _ _).getD r [])).length = rowFill (inner.len + 1) r
      by_cases hrw : (ArenaInner.index inner.len).1 = r
      · subst hrw
        rw [getD_set_self _ _ hlt, rowFill_succ_self, List.length_append, hold]
        rfl
      · rw [getD_set_other _ _ hrw, rowFill_succ_other (fun hc => hrw hc.symm)]
        exact hfill r hr
    · show (((inner.rows.set _ _).getD _ [])).get? _ = _
      rw [getD_set_self _ _ hlt, ← hold]
      exact get?_concat_self _ _
    · intro off hoff
      rcases index_mono hoff with hm | hm
      · show (((inner.rows.set _ _).getD _ [])).get? _ = _
        rw [getD_set_other _ _ (by omega)]
        rfl
      · simp only [ArenaInner.slotAt]
        rw [hm.1, getD_set_self _ _ hlt]
        exact get?_append_lt (by rw [hold]; exact hm.2)

end Trove

namespace Trove

/-- Anatomy of a successful inner try_get: in bounds, a slot that admits
a shared borrow, and the acquired flag written back. -/
theorem ArenaInner.tryGet_ok {T : Type} {inner : ArenaInner T} {off : Nat}
    {v : T} {inner1 : ArenaInner T}
    (h : inner.tryGet off = .ok (v, inner1)) :
    off < inner.len ∧ ∃ s f, inner.slotAt off = some s ∧ s.val = v ∧
      s.flag.tryBorrow = some f ∧
      inner1 = inner.setSlotAt off { s with flag := f } := by
  by_cases hoff : off ≥ inner.len
  · simp [ArenaInner.tryGet, hoff] at h
  · cases hs : inner.slotAt off with
    | none => simp [ArenaInner.tryGet, hoff, hs] at h
    | some s =>
      cases hb : s.flag.tryBorrow with
      | none => simp [ArenaInner.tryGet, hoff, hs, hb] at h
      | some f =>
        simp only [ArenaInner.tryGet, if_neg hoff, hs, hb, Res.ok.injEq,
          Prod.mk.injEq] at h
        exact ⟨by omega, s, f, rfl, h.1, hb, h.2.symm⟩

/-- Anatomy of a successful inner try_get_mut: in bounds, a Free slot,
and the Exclusive flag written back. -/
theorem ArenaInner.tryGetMut_ok {T : Type} {inner : ArenaInner T} {off : Nat}
    {v : T} {inner1 : ArenaInner T}
    (h : inner.tryGetMut off = .ok (v, inner1)) :
    off < inner.len ∧ ∃ s, inner.slotAt off = some s ∧ s.flag = .free ∧
      s.val = v ∧ inner1 = inner.setSlotAt off { s with flag := .writing } := by
  by_cases hoff : off ≥ inner.len
  · simp [ArenaInner.tryGetMut, hoff] at h
  · cases hs : inner.slotAt off with
    | none => simp [ArenaInner.tryGetMut, hoff, hs] at h
    | some s =>
      cases hf : s.flag with
      | free =>
        simp only [ArenaInner.tryGetMut, if_neg hoff, hs, hf,
          BorrowFlag.tryBorrowMut, Res.ok.injEq, Prod.mk.injEq] at h
        exact ⟨by omega, s, rfl, hf, h.1, h.2.symm⟩
      | reading e =>
        simp [ArenaInner.tryGetMut, hoff, hs, hf, BorrowFlag.tryBorrowMut] at h
      | writing =>
        simp [ArenaInner.tryGetMut, hoff, hs, hf, BorrowFlag.tryBorrowMut] at h

/-- Decomposition of a successful Arena::try_get. -/
theorem Arena.tryGet_ok_decompose {T : Type} {st : Store T} {a : Arena}
    {idx : ArenaIdx} {v : T} {st' : Store T}
    (h : Arena.tryGet st a idx = (.ok v, st')) :
    ∃ hnd inner inner1, a.arenas idx.arena = some hnd ∧
      st.getInner? hnd = some inner ∧
      inner.tryGet idx.offset = .ok (v, inner1) ∧
      st' = st.setInner hnd inner1 := by
  cases hm : a.arenas idx.arena with
  | none => simp [Arena.tryGet, hm] at h
  | some hnd =>
    cases hg : st.getInner? hnd with
    | none => simp [Arena.tryGet, hm, hg] at h
    | some inner =>
      cases hi : inner.tryGet idx.offset with
      | fatal m => simp [Arena.tryGet, hm, hg, hi] at h
      | err e => simp [Arena.tryGet, hm, hg, hi] at h
      | ok p =>
        obtain ⟨v0, inner1⟩ := p
        simp only [Arena.tryGet, hm, hg, hi, Prod.mk.injEq, Res.ok.injEq] at h
        exact ⟨hnd, inner, inner1, rfl, hg, h.1 ▸ hi, h.2.symm⟩

/-- A failing Arena::try_get returns the heap unchanged. -/
theorem Arena.tryGet_err {T : Type} {st : Store T} {a : Arena} {idx : ArenaIdx}
    {e : BorrowErr} {st' : Store T}
    (h : Arena.tryGet st a idx = (.err e, st')) : st' = st := by
  cases hm : a.arenas idx.arena with
  | none => simp [Arena.tryGet, hm] at h
  | some hnd =>
    cases hg : st.getInner? hnd with
    | none => simp [Arena.tryGet, hm, hg] at h
    | some inner =>
      cases hi : inner.tryGet idx.offset with
      | fatal m => simp [Arena.tryGet, hm, hg, hi] at h
      | err e2 =>
        simp only [Arena.tryGet, hm, hg, hi, Prod.mk.injEq] at h
        exact h.2.symm
      | ok p => obtain ⟨v0, inner1⟩ := p; simp [Arena.tryGet, hm, hg, hi] at h

/-- Decomposition of a successful current-generation try_get_mut. -/
theorem Arena.tryGetMutHere_ok_decompose {T : Type} {st : Store T} {a : Arena}
    {idx : ArenaIdx} {v : T} {st' : Store T}
    (h : Arena.tryGetMutHere st a idx = (.ok v, st')) :
    ∃ hnd inner inner1, a.arenas idx.arena = some hnd ∧
      st.getInner? hnd = some inner ∧
      inner.tryGetMut idx.offset = .ok (v, inner1) ∧
      st' = st.setInner hnd inner1 := by
  cases hm : a.arenas idx.arena with
  | none => simp [Arena.tryGetMutHere, hm] at h
  | some hnd =>
    cases hg : st.getInner? hnd with
    | none => simp [Arena.tryGetMutHere, hm, hg] at h
    | some inner =>
      cases hi : inner.tryGetMut idx.offset with
      | fatal m => simp [Arena.tryGetMutHere, hm, hg, hi] at h
      | err e => simp [Arena.tryGetMutHere, hm, hg, hi] at h
      | ok p =>
        obtain ⟨v0, inner1⟩ := p
        simp only [Arena.tryGetMutHere, hm, hg, hi, Prod.mk.injEq,
          Res.ok.injEq] at h
        exact ⟨hnd, inner, inner1, rfl, hg, h.1 ▸ hi, h.2.symm⟩

/-- A failing current-generation try_get_mut returns the heap unchanged. -/
theorem Arena.tryGetMutHere_err {T : Type} {st : Store T} {a : Arena}
    {idx : ArenaIdx} {e : BorrowMutErr} {st' : Store T}
    (h : Arena.tryGetMutHere st a idx = (.err e, st')) : st' = st := by
  cases hm : a.arenas idx.arena with
  | none => simp [Arena.tryGetMutHere, hm] at h
  | some hnd =>
    cases hg : st.getInner? hnd with
    | none => simp [Arena.tryGetMutHere, hm, hg] at h
    | some inner =>
      cases hi : inner.tryGetMut idx.offset with
      | fatal m => simp [Arena.tryGetMutHere, hm, hg, hi] at h
      | err e2 =>
        simp only [Arena.tryGetMutHere, hm, hg, hi, Prod.mk.injEq] at h
        exact h.2.symm
      | ok p => obtain ⟨v0, inner1⟩ := p; simp [Arena.tryGetMutHere, hm, hg, hi] at h

/-- Decomposition of a successful Arena::append. -/
theorem Arena.append_ok_decompose {T : Type} {st : Store T} {a : Arena}
    {t : T} {idx : ArenaIdx} {st' : Store T}
    (h : Arena.append st a t = (.ok idx, st')) :
    ∃ hnd inner inner1, a.arenas a.id = some hnd ∧
      st.getInner? hnd = some inner ∧
      inner.append a.id t = .ok (idx, inner1) ∧
      st' = st.setInner hnd inner1 := by
  cases hm : a.arenas a.id with
  | none => simp [Arena.append, hm] at h
  | some hnd =>
    cases hg : st.getInner? hnd with
    | none => simp [Arena.append, hm, hg] at h
    | some inner =>
      cases hi : inner.append a.id t with
      | fatal m => simp [Arena.append, hm, hg, hi] at h
      | err e => exact e.elim
      | ok p =>
        obtain ⟨idx0, inner1⟩ := p
        simp only [Arena.append, hm, hg, hi, Prod.mk.injEq, Res.ok.injEq] at h
        exact ⟨hnd, inner, inner1, rfl, hg, h.1 ▸ hi, h.2.symm⟩

end Trove

namespace Trove

/-- Unfolding of the fuelled try_get_mut at positive fuel. -/
theorem Arena.tryGetMutFuel_succ_eq {T : Type} (fuel : Nat) (st : Store T)
    (a : Arena) (idx : ArenaIdx) :
    Arena.tryGetMutFuel (fuel + 1) st a idx =
      (if idx.arena = a.id then
        match Arena.tryGetMutHere st a idx with
        | (.ok v, st1) => (.ok v, idx, st1)
        | (.err e, st1) => (.err (Sum.inl e), idx, st1)
        | (.fatal m, st1) => (.fatal m, idx, st1)
      else
        match Arena.tryGet st a idx with
        | (.err e, st1) => (.err (Sum.inr e), idx, st1)
        | (.fatal m, st1) => (.fatal m, idx, st1)
        | (.ok t, st1) =>
          let st2 := Arena.releaseSharedAt st1 a idx
          match Arena.append st2 a t with
          | (.fatal m, st3) => (.fatal m, idx, st3)
          | (.err e, _) => e.elim
          | (.ok idx2, st3) => Arena.tryGetMutFuel fuel st3 a idx2) := rfl

/-- The borrow-flag round trip of a released shared borrow. -/
theorem BorrowFlag.releaseShared_tryBorrow {g f : BorrowFlag}
    (h : g.tryBorrow = some f) : BorrowFlag.releaseShared f = g := by
  cases g with
  | free =>
    simp only [BorrowFlag.tryBorrow, Option.some.injEq] at h
    rw [← h]
    rfl
  | reading e =>
    simp only [BorrowFlag.tryBorrow, Option.some.injEq] at h
    rw [← h]
    rfl
  | writing => simp [BorrowFlag.tryBorrow] at h

/-- Releasing the temporary shared borrow taken by a successful try_get
restores the heap exactly. -/
theorem Arena.tryGet_ok_release {T : Type} {st : Store T} {a : Arena}
    {idx : ArenaIdx} {v : T} {st1 : Store T}
    (h : Arena.tryGet st a idx = (.ok v, st1)) :
    Arena.releaseSharedAt st1 a idx = st := by
  obtain ⟨hnd, inner, inner1, hm, hg, hi, hst⟩ := Arena.tryGet_ok_decompose h
  obtain ⟨hoff, s, f, hslot, hval, hbor, hinner1⟩ := ArenaInner.tryGet_ok hi
  have hlt : hnd < st.inners.length := Store.lt_of_getInner? hg
  subst hst
  subst hinner1
  have hg1 := Store.getInner?_setInner_self
    (inner.setSlotAt idx.offset { s with flag := f }) hlt
  have hs1 : (inner.setSlotAt idx.offset { s with flag := f }).slotAt idx.offset
      = some { s with flag := f } := ArenaInner.slotAt_setSlotAt_self hslot _
  simp only [Arena.releaseSharedAt, Arena.updateFlagAt, hm, hg1, hs1]
  rw [ArenaInner.setSlotAt_setSlotAt]
  have hslotrw : ({ val := s.val, flag := BorrowFlag.releaseShared f } : Slot T) = s := by
    rw [BorrowFlag.releaseShared_tryBorrow hbor]
  rw [hslotrw, ArenaInner.setSlotAt_self hslot, Store.setInner_setInner,
    Store.setInner_self hg]

end Trove

namespace Trove

/-- Decomposition of a successful slot observation. -/
theorem Arena.slotAt_some_decompose {T : Type} {st : Store T} {a : Arena}
    {idx : ArenaIdx} {s : Slot T} (h : Arena.slotAt st a idx = some s) :
    ∃ hnd inner, a.arenas idx.arena = some hnd ∧
      st.getInner? hnd = some inner ∧
      idx.offset < inner.len ∧ inner.slotAt idx.offset = some s := by
  cases hm : a.arenas idx.arena with
  | none => simp [Arena.slotAt, hm] at h
  | some hnd =>
    cases hg : st.getInner? hnd with
    | none => simp [Arena.slotAt, hm, hg] at h
    | some inner =>
      by_cases hoff : idx.offset < inner.len
      · simp only [Arena.slotAt, hm, hg, if_pos hoff] at h
        exact ⟨hnd, inner, rfl, hg, hoff, h⟩
      · simp [Arena.slotAt, hm, hg, if_neg hoff] at h

/-- try_get on an exclusively borrowed slot returns the recoverable
BorrowError and leaves the heap alone. -/
theorem Arena.tryGet_writing {T : Type} {st : Store T} {a : Arena}
    {idx : ArenaIdx} {s : Slot T} (h : Arena.slotAt st a idx = some s)
    (hf : s.flag = .writing) :
    Arena.tryGet st a idx = (.err .borrowError, st) := by
  obtain ⟨hnd, inner, hm, hg, hoff, hs⟩ := Arena.slotAt_some_decompose h
  have hi : inner.tryGet idx.offset = .err .borrowError := by
    simp only [ArenaInner.tryGet, if_neg (by omega : ¬ idx.offset ≥ inner.len),
      hs, hf, BorrowFlag.tryBorrow]
  simp only [Arena.tryGet, hm, hg, hi]

/-- try_get_mut on an exclusively borrowed slot returns the recoverable
BorrowMutError and leaves the heap alone. -/
theorem Arena.tryGetMutHere_writing {T : Type} {st : Store T} {a : Arena}
    {idx : ArenaIdx} {s : Slot T} (h : Arena.slotAt st a idx = some s)
    (hf : s.flag = .writing) :
    Arena.tryGetMutHere st a idx = (.err .borrowMutError, st) := by
  obtain ⟨hnd, inner, hm, hg, hoff, hs⟩ := Arena.slotAt_some_decompose h
  have hi : inner.tryGetMut idx.offset = .err .borrowMutError := by
    simp only [ArenaInner.tryGetMut, if_neg (by omega : ¬ idx.offset ≥ inner.len),
      hs, hf, BorrowFlag.tryBorrowMut]
  simp only [Arena.tryGetMutHere, hm, hg, hi]

/-- try_get_mut on a Free slot acquires the exclusive borrow. -/
theorem Arena.tryGetMutHere_free {T : Type} {st : Store T} {a : Arena}
    {idx : ArenaIdx} {s : Slot T} (h : Arena.slotAt st a idx = some s)
    (hf : s.flag = .free) :
    ∃ st', Arena.tryGetMutHere st a idx = (.ok s.val, st') := by
  obtain ⟨hnd, inner, hm, hg, hoff, hs⟩ := Arena.slotAt_some_decompose h
  have hi : inner.tryGetMut idx.offset =
      .ok (s.val, inner.setSlotAt idx.offset { s with flag := .writing }) := by
    simp only [ArenaInner.tryGetMut, if_neg (by omega : ¬ idx.offset ≥ inner.len),
      hs, hf, BorrowFlag.tryBorrowMut]
  refine ⟨st.setInner hnd (inner.setSlotAt idx.offset { s with flag := .writing }), ?_⟩
  simp only [Arena.tryGetMutHere, hm, hg, hi]

/-- After a successful current-generation try_get_mut the slot stands
exclusively borrowed with the reported value; before it, the slot was
Free with the same value. -/
theorem Arena.tryGetMutHere_ok_post {T : Type} {st : Store T} {a : Arena}
    {idx : ArenaIdx} {v : T} {st' : Store T}
    (h : Arena.tryGetMutHere st a idx = (.ok v, st')) :
    Arena.slotAt st' a idx = some { val := v, flag := .writing } ∧
    Arena.slotAt st a idx = some { val := v, flag := .free } := by
  obtain ⟨hnd, inner, inner1, hm, hg, hi, hst⟩ := Arena.tryGetMutHere_ok_decompose h
  obtain ⟨hoff, s, hslot, hflag, hval, hinner1⟩ := ArenaInner.tryGetMut_ok hi
  have hlt : hnd < st.inners.length := Store.lt_of_getInner? hg
  subst hst
  subst hinner1
  constructor
  · have hg1 := Store.getInner?_setInner_self
      (inner.setSlotAt idx.offset { s with flag := .writing }) hlt
    have hs1 := ArenaInner.slotAt_setSlotAt_self hslot
      ({ s with flag := BorrowFlag.writing })
    simp only [Arena.slotAt, hm, hg1]
    rw [if_pos (by rw [ArenaInner.setSlotAt_len]; omega), hs1, ← hval]
  · simp only [Arena.slotAt, hm, hg, if_pos hoff]
    rw [hslot, ← hval, ← hflag]

/-- Dropping the exclusive guard acquired by a successful
current-generation try_get_mut restores the heap exactly. -/
theorem Arena.dropMut_after_here {T : Type} {st : Store T} {a : Arena}
    {idx : ArenaIdx} {v : T} {st' : Store T}
    (h : Arena.tryGetMutHere st a idx = (.ok v, st')) :
    Arena.dropMutAt st' a idx = st := by
  obtain ⟨hnd, inner, inner1, hm, hg, hi, hst⟩ := Arena.tryGetMutHere_ok_decompose h
  obtain ⟨hoff, s, hslot, hflag, hval, hinner1⟩ := ArenaInner.tryGetMut_ok hi
  have hlt : hnd < st.inners.length := Store.lt_of_getInner? hg
  subst hst
  subst hinner1
  have hg1 := Store.getInner?_setInner_self
    (inner.setSlotAt idx.offset { s with flag := .writing }) hlt
  have hs1 := ArenaInner.slotAt_setSlotAt_self hslot
    ({ s with flag := BorrowFlag.writing })
  simp only [Arena.dropMutAt, Arena.updateFlagAt, hm, hg1, hs1]
  rw [ArenaInner.setSlotAt_setSlotAt]
  have hslotrw : ({ val := s.val, flag := BorrowFlag.releaseMut BorrowFlag.writing } : Slot T) = s := by
    show ({ val := s.val, flag := BorrowFlag.free } : Slot T) = s
    rw [← hflag]
  rw [hslotrw, ArenaInner.setSlotAt_self hslot, Store.setInner_setInner,
    Store.setInner_self hg]

end Trove

namespace Trove

/-- Forward computation: current-generation try_get_mut, success. -/
theorem Arena.tryGetMut_of_here {T : Type} {st : Store T} {a : Arena}
    {idx : ArenaIdx} {v : T} {st1 : Store T} (hid : idx.arena = a.id)
    (hh : Arena.tryGetMutHere st a idx = (.ok v, st1)) :
    Arena.tryGetMut st a idx = (.ok v, idx, st1) := by
  show Arena.tryGetMutFuel 2 st a idx = _
  rw [show (2 : Nat) = 1 + 1 from rfl, Arena.tryGetMutFuel_succ_eq, if_pos hid, hh]

/-- Forward computation: current-generation try_get_mut, recoverable
failure. -/
theorem Arena.tryGetMut_of_here_err {T : Type} {st : Store T} {a : Arena}
    {idx : ArenaIdx} {e : BorrowMutErr} {st1 : Store T} (hid : idx.arena = a.id)
    (hh : Arena.tryGetMutHere st a idx = (.err e, st1)) :
    Arena.tryGetMut st a idx = (.err (Sum.inl e), idx, st1) := by
  show Arena.tryGetMutFuel 2 st a idx = _
  rw [show (2 : Nat) = 1 + 1 from rfl, Arena.tryGetMutFuel_succ_eq, if_pos hid, hh]

/-- Forward computation: current-generation try_get_mut, panic. -/
theorem Arena.tryGetMut_of_here_fatal {T : Type} {st : Store T} {a : Arena}
    {idx : ArenaIdx} {m : String} {st1 : Store T} (hid : idx.arena = a.id)
    (hh : Arena.tryGetMutHere st a idx = (.fatal m, st1)) :
    Arena.tryGetMut st a idx = (.fatal m, idx, st1) := by
  show Arena.tryGetMutFuel 2 st a idx = _
  rw [show (2 : Nat) = 1 + 1 from rfl, Arena.tryGetMutFuel_succ_eq, if_pos hid, hh]

/-- Forward computation: copy-on-write path whose initial shared read
fails. -/
theorem Arena.tryGetMut_of_cow_err {T : Type} {st : Store T} {a : Arena}
    {idx : ArenaIdx} {e : BorrowErr} {st1 : Store T} (hid : ¬ idx.arena = a.id)
    (hg : Arena.tryGet st a idx = (.err e, st1)) :
    Arena.tryGetMut st a idx = (.err (Sum.inr e), idx, st1) := by
  show Arena.tryGetMutFuel 2 st a idx = _
  rw [show (2 : Nat) = 1 + 1 from rfl, Arena.tryGetMutFuel_succ_eq, if_neg hid, hg]

/-- Forward computation: copy-on-write path whose initial shared read
panics. -/
theorem Arena.tryGetMut_of_cow_fatal {T : Type} {st : Store T} {a : Arena}
    {idx : ArenaIdx} {m : String} {st1 : Store T} (hid : ¬ idx.arena = a.id)
    (hg : Arena.tryGet st a idx = (.fatal m, st1)) :
    Arena.tryGetMut st a idx = (.fatal m, idx, st1) := by
  show Arena.tryGetMutFuel 2 st a idx = _
  rw [show (2 : Nat) = 1 + 1 from rfl, Arena.tryGetMutFuel_succ_eq, if_neg hid, hg]

/-- Forward computation: copy-on-write path after a successful shared
read (the temporary guard is released, then the clone is appended and
the promotion retried). -/
theorem Arena.tryGetMut_cow_ok_eq {T : Type} {st : Store T} {a : Arena}
    {idx : ArenaIdx} {v0 : T} {st1 : Store T} (hid : ¬ idx.arena = a.id)
    (hg : Arena.tryGet st a idx = (.ok v0, st1)) :
    Arena.tryGetMut st a idx =
      (match Arena.append (Arena.releaseSharedAt st1 a idx) a v0 with
       | (.fatal m, st3) => (.fatal m, idx, st3)
       | (.err e, _) => e.elim
       | (.ok idx2, st3) => Arena.tryGetMutFuel 1 st3 a idx2) := by
  show Arena.tryGetMutFuel 2 st a idx = _
  rw [show (2 : Nat) = 1 + 1 from rfl, Arena.tryGetMutFuel_succ_eq, if_neg hid, hg]

/-- Inverse: a successful try_get_mut on a current-generation index is
exactly a successful inner exclusive acquisition, with the index
untouched. -/
theorem Arena.tryGetMut_here_case {T : Type} {st : Store T} {a : Arena}
    {idx idx' : ArenaIdx} {v : T} {st' : Store T} (hid : idx.arena = a.id)
    (h : Arena.tryGetMut st a idx = (.ok v, idx', st')) :
    idx' = idx ∧ Arena.tryGetMutHere st a idx = (.ok v, st') := by
  rcases hh : Arena.tryGetMutHere st a idx with ⟨r, s1⟩
  cases r with
  | ok v0 =>
    rw [Arena.tryGetMut_of_here hid hh] at h
    simp only [Prod.mk.injEq, Res.ok.injEq] at h
    exact ⟨h.2.1.symm, by rw [h.1, h.2.2]⟩
  | err e =>
    rw [Arena.tryGetMut_of_here_err hid hh] at h
    simp at h
  | fatal m =>
    rw [Arena.tryGetMut_of_here_fatal hid hh] at h
    simp at h

/-- Inverse: a successful try_get_mut on a foreign-generation index is
exactly the copy-on-write promotion: a successful shared read of the
old slot, an append of the clone into the current generation minting
the rewritten index, and a successful exclusive acquisition there. -/
theorem Arena.tryGetMut_cow_case {T : Type} {st : Store T} {a : Arena}
    {idx idx' : ArenaIdx} {v : T} {st' : Store T} (hid : ¬ idx.arena = a.id)
    (h : Arena.tryGetMut st a idx = (.ok v, idx', st')) :
    ∃ v0 st1 st3, Arena.tryGet st a idx = (.ok v0, st1) ∧
      Arena.append st a v0 = (.ok idx', st3) ∧ idx'.arena = a.id ∧
      Arena.tryGetMutHere st3 a idx' = (.ok v, st') := by
  rcases hg1 : Arena.tryGet st a idx with ⟨r1, s1⟩
  cases r1 with
  | err e =>
    rw [Arena.tryGetMut_of_cow_err hid hg1] at h
    simp at h
  | fatal m =>
    rw [Arena.tryGetMut_of_cow_fatal hid hg1] at h
    simp at h
  | ok v0 =>
    rw [Arena.tryGetMut_cow_ok_eq hid hg1, Arena.tryGet_ok_release hg1] at h
    rcases ha : Arena.append st a v0 with ⟨r2, s3⟩
    rw [ha] at h
    cases r2 with
    | fatal m =>
      replace h : ((.fatal m, idx, s3) :
          Res (Sum BorrowMutErr BorrowErr) T × ArenaIdx × Store T) =
          (.ok v, idx', st') := h
      simp at h
    | err e => exact e.elim
    | ok idx2 =>
      replace h : Arena.tryGetMutFuel 1 s3 a idx2 = (.ok v, idx', st') := h
      obtain ⟨hnd, inner, inner1, hm, hg, hi, hst⟩ := Arena.append_ok_decompose ha
      obtain ⟨hidx2, hlen1⟩ := ArenaInner.append_ok_basic hi
      have hid2 : idx2.arena = a.id := by rw [hidx2]
      rw [show (1 : Nat) = 0 + 1 from rfl, Arena.tryGetMutFuel_succ_eq,
        if_pos hid2] at h
      rcases hh : Arena.tryGetMutHere s3 a idx2 with ⟨r3, s4⟩
      rw [hh] at h
      cases r3 with
      | ok v1 =>
        replace h : ((.ok v1, idx2, s4) :
            Res (Sum BorrowMutErr BorrowErr) T × ArenaIdx × Store T) =
            (.ok v, idx', st') := h
        simp only [Prod.mk.injEq, Res.ok.injEq] at h
        obtain ⟨hv, hidx, hs4⟩ := h
        refine ⟨v0, s1, s3, rfl, ?_, ?_, ?_⟩
        · rw [← hidx]; exact ha
        · rw [← hidx]; exact hid2
        · rw [← hidx, hh, hv, hs4]
      | err e =>
        replace h : ((.err (Sum.inl e), idx2, s4) :
            Res (Sum BorrowMutErr BorrowErr) T × ArenaIdx × Store T) =
            (.ok v, idx', st') := h
        simp at h
      | fatal m =>
        replace h : ((.fatal m, idx2, s4) :
            Res (Sum BorrowMutErr BorrowErr) T × ArenaIdx × Store T) =
            (.ok v, idx', st') := h
        simp at h

end Trove

namespace Trove

/-- Slot observation only depends on the map entry and the generation
it resolves to. -/
theorem Arena.slotAt_congr {T : Type} {st1 st2 : Store T} {a1 a2 : Arena}
    {idx : ArenaIdx} (hm : a1.arenas idx.arena = a2.arenas idx.arena)
    (hg : ∀ hnd, a2.arenas idx.arena = some hnd →
      st1.getInner? hnd = st2.getInner? hnd) :
    Arena.slotAt st1 a1 idx = Arena.slotAt st2 a2 idx := by
  cases hm2 : a2.arenas idx.arena with
  | none => simp [Arena.slotAt, hm, hm2]
  | some hnd =>
    have hgg := hg hnd hm2
    simp only [Arena.slotAt, hm, hm2, hgg]

/-- The outcome of try_get only depends on the map entry and the
generation it resolves to. -/
theorem Arena.tryGet_fst_congr {T : Type} {st1 st2 : Store T} {a1 a2 : Arena}
    {idx : ArenaIdx} (hm : a1.arenas idx.arena = a2.arenas idx.arena)
    (hg : ∀ hnd, a2.arenas idx.arena = some hnd →
      st1.getInner? hnd = st2.getInner? hnd) :
    (Arena.tryGet st1 a1 idx).1 = (Arena.tryGet st2 a2 idx).1 := by
  cases hm2 : a2.arenas idx.arena with
  | none => simp [Arena.tryGet, hm, hm2]
  | some hnd =>
    have hgg := hg hnd hm2
    cases hgi : st2.getInner? hnd with
    | none => simp [Arena.tryGet, hm, hm2, hgg, hgi]
    | some inner =>
      rw [hgi] at hgg
      cases hti : inner.tryGet idx.offset with
      | fatal m => simp [Arena.tryGet, hm, hm2, hgg, hgi, hti]
      | err e => simp [Arena.tryGet, hm, hm2, hgg, hgi, hti]
      | ok p =>
        obtain ⟨v, i1⟩ := p
        simp [Arena.tryGet, hm, hm2, hgg, hgi, hti]

/-- A slot whose flag admits a shared borrow can be read. -/
theorem Arena.tryGet_acquirable {T : Type} {st : Store T} {a : Arena}
    {idx : ArenaIdx} {s : Slot T} {f : BorrowFlag}
    (h : Arena.slotAt st a idx = some s) (hb : s.flag.tryBorrow = some f) :
    ∃ st', Arena.tryGet st a idx = (.ok s.val, st') := by
  obtain ⟨hnd, inner, hm, hg, hoff, hs⟩ := Arena.slotAt_some_decompose h
  have hi : inner.tryGet idx.offset =
      .ok (s.val, inner.setSlotAt idx.offset { s with flag := f }) := by
    simp only [ArenaInner.tryGet, if_neg (by omega : ¬ idx.offset ≥ inner.len),
      hs, hb]
  refine ⟨st.setInner hnd (inner.setSlotAt idx.offset { s with flag := f }), ?_⟩
  simp only [Arena.tryGet, hm, hg, hi]

/-- Post-state of a successful append on a well-formed heap: the minted
index names the next offset of the current generation, the new slot is
Free and holds the value, the generation length grew by one, the heap is
still well-formed, and every previously observable slot is untouched. -/
theorem Arena.append_ok_post {T : Type} {st : Store T} {a : Arena} {t : T}
    {idx : ArenaIdx} {st' : Store T} (hwf : Store.WF st)
    (h : Arena.append st a t = (.ok idx, st')) :
    idx.arena = a.id ∧
    Arena.slotAt st' a idx = some { val := t, flag := .free } ∧
    Arena.lenOf st a a.id = some idx.offset ∧
    Arena.lenOf st' a a.id = some (idx.offset + 1) ∧
    Store.WF st' ∧
    (∀ idx0 s0, Arena.slotAt st a idx0 = some s0 →
      Arena.slotAt st' a idx0 = some s0) := by
  obtain ⟨hnd, inner, inner1, hm, hg, hi, hst⟩ := Arena.append_ok_decompose h
  obtain ⟨hidx, hlen1⟩ := ArenaInner.append_ok_basic hi
  have hinwf := Store.WF_getInner hwf hg
  obtain ⟨hwf1, hsl, hpres⟩ := ArenaInner.append_ok_WF hinwf hi
  have hlt := Store.lt_of_getInner? hg
  have hid2 : idx.arena = a.id := by rw [hidx]
  have hoff2 : idx.offset = inner.len := by rw [hidx]
  have hg3 : st'.getInner? hnd = some inner1 := by
    rw [hst]; exact Store.getInner?_setInner_self inner1 hlt
  refine ⟨hid2, ?_, ?_, ?_, ?_, ?_⟩
  · simp only [Arena.slotAt, hid2, hm, hg3]
    rw [if_pos (by rw [hoff2, hlen1]; omega), hoff2]
    exact hsl
  · have hlo : Arena.lenOf st a a.id = some inner.len := by
      simp [Arena.lenOf, hm, hg]
    rw [hlo, hoff2]
  · have hlo : Arena.lenOf st' a a.id = some inner1.len := by
      simp [Arena.lenOf, hm, hg3]
    rw [hlo, hlen1, hoff2]
  · rw [hst]; exact Store.WF_setInner hwf hnd hwf1
  · intro idx0 s0 h0
    obtain ⟨hnd0, inner0, hm0, hg0, hoff0, hs0⟩ := Arena.slotAt_some_decompose h0
    by_cases heq : hnd0 = hnd
    · subst heq
      rw [hg] at hg0
      injection hg0 with hg0
      subst hg0
      have hg0' : st'.getInner? hnd0 = some inner1 := hg3
      simp only [Arena.slotAt, hm0, hg0']
      rw [if_pos (by omega), hpres idx0.offset hoff0]
      exact hs0
    · have hgo : st'.getInner? hnd0 = st.getInner? hnd0 := by
        rw [hst]
        exact Store.getInner?_setInner_other st inner1 (fun hc => heq hc.symm)
      simp only [Arena.slotAt, hm0, hgo, hg0]
      rw [if_pos hoff0]
      exact hs0

end Trove

namespace Trove

/-- Effect of a guard flag transition on the slot it stands at. -/
theorem Arena.updateFlagAt_flagAt {T : Type} {st : Store T} {a : Arena}
    {idx : ArenaIdx} {s : Slot T} (g : BorrowFlag → BorrowFlag)
    (h : Arena.slotAt st a idx = some s) :
    Arena.slotAt (Arena.updateFlagAt st a idx g) a idx =
      some { s with flag := g s.flag } := by
  obtain ⟨hnd, inner, hm, hg, hoff, hs⟩ := Arena.slotAt_some_decompose h
  have hlt := Store.lt_of_getInner? hg
  simp only [Arena.updateFlagAt, hm, hg, hs]
  simp only [Arena.slotAt, hm, Store.getInner?_setInner_self _ hlt]
  rw [if_pos (by rw [ArenaInner.setSlotAt_len]; omega)]
  exact ArenaInner.slotAt_setSlotAt_self hs _

/-- A successful exclusive acquisition leaves every slot at a different
offset or different generation storage untouched. -/
theorem Arena.tryGetMutHere_preserves {T : Type} {st : Store T} {a : Arena}
    {idx : ArenaIdx} {v : T} {st' : Store T}
    (hh : Arena.tryGetMutHere st a idx = (.ok v, st'))
    {idx0 : ArenaIdx} {s0 : Slot T} (h0 : Arena.slotAt st a idx0 = some s0)
    (hdiff : idx0.offset ≠ idx.offset ∨ a.arenas idx0.arena ≠ a.arenas idx.arena) :
    Arena.slotAt st' a idx0 = some s0 := by
  obtain ⟨hnd, inner, inner1, hm, hg, hi, hst⟩ := Arena.tryGetMutHere_ok_decompose hh
  obtain ⟨hoff, s, hslot, hflag, hval, hinner1⟩ := ArenaInner.tryGetMut_ok hi
  obtain ⟨hnd0, inner0, hm0, hg0, hoff0, hs0⟩ := Arena.slotAt_some_decompose h0
  have hlt := Store.lt_of_getInner? hg
  subst hst
  subst hinner1
  by_cases hheq : hnd0 = hnd
  · subst hheq
    have heqi : inner0 = inner := by
      have h2 := hg0.symm.trans hg
      simpa using h2
    subst heqi
    have hoffne : idx0.offset ≠ idx.offset := by
      rcases hdiff with hd | hd
      · exact hd
      · exact absurd (hm0.trans hm.symm) hd
    simp only [Arena.slotAt, hm0, Store.getInner?_setInner_self _ hlt]
    rw [if_pos (by rw [ArenaInner.setSlotAt_len]; omega)]
    rw [ArenaInner.slotAt_setSlotAt_other _ (fun hc => hoffne hc.symm)]
    exact hs0
  · simp only [Arena.slotAt, hm0,
      Store.getInner?_setInner_other st _ (fun hc => hheq hc.symm), hg0]
    rw [if_pos hoff0]
    exact hs0

/-- A write through a guard standing at a given generation handle leaves
the storage of every other handle untouched. -/
theorem Arena.writeAt_getInner_other {T : Type} {st : Store T} {a : Arena}
    {idx : ArenaIdx} {w : T} {hnd h0 : Nat}
    (hm : a.arenas idx.arena = some hnd) (hne : hnd ≠ h0) :
    (Arena.writeAt st a idx w).getInner? h0 = st.getInner? h0 := by
  cases hg : st.getInner? hnd with
  | none => simp only [Arena.writeAt, hm, hg]
  | some inner =>
    cases hs : inner.slotAt idx.offset with
    | none => simp only [Arena.writeAt, hm, hg, hs]
    | some s =>
      simp only [Arena.writeAt, hm, hg, hs]
      exact Store.getInner?_setInner_other st _ hne

/-- try_get only consults the map entry of the generation of the index. -/
theorem Arena.tryGet_map_congr {T : Type} {st : Store T} {a1 a2 : Arena}
    {idx : ArenaIdx} (hm : a1.arenas idx.arena = a2.arenas idx.arena) :
    Arena.tryGet st a1 idx = Arena.tryGet st a2 idx := by
  simp only [Arena.tryGet, hm]

end Trove

namespace Trove

/-- C8: The pure bucket index function maps linear offsets 0 through 31
to bucket 0 offsets 0 through 31, offset 32 to bucket 1 offset 0, and
offset 96 to bucket 2 offset 0; in general bucket k (0-indexed) holds
exactly the 32·2^k consecutive linear offsets starting at 32·(2^k − 1). -/
theorem C8_index_scheme :
    (∀ i, i ≤ 31 → ArenaInner.index i = (0, i)) ∧
    ArenaInner.index 32 = (1, 0) ∧
    ArenaInner.index 96 = (2, 0) ∧
    (∀ k i, (ArenaInner.index i).1 = k ↔
      32 * (2 ^ k - 1) ≤ i ∧ i < 32 * (2 ^ k - 1) + 32 * 2 ^ k) ∧
    (∀ k i, 32 * (2 ^ k - 1) ≤ i → i < 32 * (2 ^ k - 1) + 32 * 2 ^ k →
      (ArenaInner.index i).2 = i - 32 * (2 ^ k - 1)) := by
  have hb : ∀ k, bucketStart k = 32 * (2 ^ k - 1) := by
    intro k
    unfold bucketStart BASE
    ring
  have hbc : ∀ k, bucketStart (k + 1) = 32 * (2 ^ k - 1) + 32 * 2 ^ k := by
    intro k
    rw [bucketStart_succ, hb]
    unfold bucketCap BASE
    ring
  have hs0 : bucketStart 0 = 0 := by unfold bucketStart BASE; norm_num
  have hs1 : bucketStart 1 = 32 := by unfold bucketStart BASE; norm_num
  refine ⟨?_, by decide, by decide, ?_, ?_⟩
  · intro i hi
    have hspec := @index_spec 0 i (hs0 ▸ Nat.zero_le i) (hs1 ▸ (by omega))
    rw [hspec, hs0]
    simp
  · intro k i
    constructor
    · intro hk
      have h1 := index_fst_range i
      rw [hk] at h1
      exact ⟨hb k ▸ h1.1, hbc k ▸ h1.2⟩
    · rintro ⟨h1, h2⟩
      have hspec := @index_spec k i (by rw [hb]; exact h1)
        (by rw [hbc]; exact h2)
      rw [hspec]
  · intro k i h1 h2
    have hspec := @index_spec k i (by rw [hb]; exact h1)
      (by rw [hbc]; exact h2)
    rw [hspec, hb]

end Trove

namespace Trove

/-- C7 (round-trip): on a well-formed heap, if append(v) returns index
idx, then get(&idx) performed immediately afterwards succeeds and
returns v. -/
theorem C7_roundtrip {T : Type} {st : Store T} {a : Arena} {v : T}
    {idx : ArenaIdx} {st' : Store T} (hwf : Store.WF st)
    (h : Arena.append st a v = (.ok idx, st')) :
    ∃ st'', Arena.tryGet st' a idx = (.ok v, st'') := by
  obtain ⟨hid, hsl, hlen, hlen', hwf', hpres⟩ := Arena.append_ok_post hwf h
  obtain ⟨st'', hget⟩ := Arena.tryGet_acquirable hsl rfl
  exact ⟨st'', hget⟩

/-- C5 (mutual exclusion): while the exclusive guard minted by a
successful try_get_mut is alive, a second try_get_mut on the same index
returns the recoverable BorrowMutError and try_get the recoverable
BorrowError, both leaving the heap unchanged; once the guard is
dropped, the acquisition succeeds again. -/
theorem C5_mutual_exclusion {T : Type} {st : Store T} {a : Arena}
    {idx idx' : ArenaIdx} {v : T} {st' : Store T}
    (hok : Arena.tryGetMut st a idx = (.ok v, idx', st')) :
    Arena.tryGetMut st' a idx' = (.err (Sum.inl .borrowMutError), idx', st') ∧
    Arena.tryGet st' a idx' = (.err .borrowError, st') ∧
    Arena.tryGetMut (Arena.dropMutAt st' a idx') a idx' = (.ok v, idx', st') := by
  have key : idx'.arena = a.id ∧
      ∃ stH, Arena.tryGetMutHere stH a idx' = (.ok v, st') := by
    by_cases hid : idx.arena = a.id
    · obtain ⟨hidx, hh⟩ := Arena.tryGetMut_here_case hid hok
      subst hidx
      exact ⟨hid, st, hh⟩
    · obtain ⟨v0, st1, st3, hg1, ha, hid2, hh⟩ := Arena.tryGetMut_cow_case hid hok
      exact ⟨hid2, st3, hh⟩
  obtain ⟨hid', stH, hh⟩ := key
  have hpost := Arena.tryGetMutHere_ok_post hh
  refine ⟨?_, ?_, ?_⟩
  · exact Arena.tryGetMut_of_here_err hid'
      (Arena.tryGetMutHere_writing hpost.1 rfl)
  · exact Arena.tryGet_writing hpost.1 rfl
  · rw [Arena.dropMut_after_here hh]
    exact Arena.tryGetMut_of_here hid' hh

/-- C9: the slot behind a live exclusive guard is Exclusive; the
spec-modelled downgrade turns it into Shared(1) (one shared borrower),
and the spec-modelled into_owned hands back the bare index and resets
the slot to Free. -/
theorem C9_guard_transitions {T : Type} {st : Store T} {a : Arena}
    {idx idx' : ArenaIdx} {v : T} {st' : Store T}
    (hok : Arena.tryGetMut st a idx = (.ok v, idx', st')) :
    Arena.flagAt st' a idx' = some .writing ∧
    Arena.flagAt (Arena.downgrade st' a idx') a idx' = some (.reading 0) ∧
    (Arena.intoOwned st' a idx').1 = idx' ∧
    Arena.flagAt ((Arena.intoOwned st' a idx').2) a idx' = some .free := by
  have key : idx'.arena = a.id ∧
      ∃ stH, Arena.tryGetMutHere stH a idx' = (.ok v, st') := by
    by_cases hid : idx.arena = a.id
    · obtain ⟨hidx, hh⟩ := Arena.tryGetMut_here_case hid hok
      subst hidx
      exact ⟨hid, st, hh⟩
    · obtain ⟨v0, st1, st3, hg1, ha, hid2, hh⟩ := Arena.tryGetMut_cow_case hid hok
      exact ⟨hid2, st3, hh⟩
  obtain ⟨hid', stH, hh⟩ := key
  have hpost := (Arena.tryGetMutHere_ok_post hh).1
  refine ⟨?_, ?_, rfl, ?_⟩
  · simp only [Arena.flagAt, hpost]
    rfl
  · have := Arena.updateFlagAt_flagAt (fun _ => BorrowFlag.reading 0) hpost
    simp only [Arena.downgrade, Arena.flagAt, this]
    rfl
  · have := Arena.updateFlagAt_flagAt (fun _ => BorrowFlag.free) hpost
    simp only [Arena.intoOwned, Arena.flagAt, this]
    rfl

/-- C10 (merge frame): merge reads its inputs and writes nothing: the
heap it returns is the very heap it was given, so every observation and
every get through either input arena is unchanged, and the inputs' ids
and maps are untouched (they are inputs of the embedding, never
rebuilt). -/
theorem C10_merge_frame {T : Type} (st : Store T) (a b : Arena) (ctr : Nat) :
    (Arena.merge st a b ctr).2.1 = st ∧
    (∀ idx, Arena.tryGet ((Arena.merge st a b ctr).2.1) a idx =
      Arena.tryGet st a idx) ∧
    (∀ idx, Arena.tryGet ((Arena.merge st a b ctr).2.1) b idx =
      Arena.tryGet st b idx) ∧
    (∀ idx, Arena.valAt ((Arena.merge st a b ctr).2.1) a idx =
      Arena.valAt st a idx) ∧
    (∀ idx, Arena.valAt ((Arena.merge st a b ctr).2.1) b idx =
      Arena.valAt st b idx) :=
  ⟨rfl, fun _ => rfl, fun _ => rfl, fun _ => rfl, fun _ => rfl⟩

/-- C6 (no partial side effects on recoverable errors): on a
well-formed heap, whenever try_get or try_get_mut returns a recoverable
error, the heap is returned exactly as it was and the index of the caller is
not rewritten; in particular the copy-on-write path appends and
rewrites only on runs that succeed. -/
theorem C6_error_frame {T : Type} (st : Store T) (a : Arena) (idx : ArenaIdx)
    (hwf : Store.WF st) :
    (∀ e st', Arena.tryGet st a idx = (.err e, st') → st' = st) ∧
    (∀ e idx' st', Arena.tryGetMut st a idx = (.err e, idx', st') →
      st' = st ∧ idx' = idx) := by
  constructor
  · intro e st' h
    exact Arena.tryGet_err h
  · intro e idx' st' h
    by_cases hid : idx.arena = a.id
    · rcases hh : Arena.tryGetMutHere st a idx with ⟨r, s1⟩
      cases r with
      | ok v0 =>
        rw [Arena.tryGetMut_of_here hid hh] at h
        simp at h
      | err e0 =>
        rw [Arena.tryGetMut_of_here_err hid hh] at h
        simp only [Prod.mk.injEq] at h
        obtain ⟨he, hidx, hst⟩ := h
        refine ⟨?_, hidx.symm⟩
        rw [← hst]
        exact Arena.tryGetMutHere_err hh
      | fatal m =>
        rw [Arena.tryGetMut_of_here_fatal hid hh] at h
        simp at h
    · rcases hg1 : Arena.tryGet st a idx with ⟨r1, s1⟩
      cases r1 with
      | err e0 =>
        rw [Arena.tryGetMut_of_cow_err hid hg1] at h
        simp only [Prod.mk.injEq] at h
        obtain ⟨he, hidx, hst⟩ := h
        refine ⟨?_, hidx.symm⟩
        rw [← hst]
        exact Arena.tryGet_err hg1
      | fatal m =>
        rw [Arena.tryGetMut_of_cow_fatal hid hg1] at h
        simp at h
      | ok v0 =>
        rw [Arena.tryGetMut_cow_ok_eq hid hg1, Arena.tryGet_ok_release hg1] at h
        rcases ha : Arena.append st a v0 with ⟨r2, s3⟩
        rw [ha] at h
        cases r2 with
        | fatal m =>
          replace h : ((.fatal m, idx, s3) :
              Res (Sum BorrowMutErr BorrowErr) T × ArenaIdx × Store T) =
              (.err e, idx', st') := h
          simp at h
        | err e0 => exact e0.elim
        | ok idx2 =>
          replace h : Arena.tryGetMutFuel 1 s3 a idx2 = (.err e, idx', st') := h
          obtain ⟨hid2, hsl3, _, _, _, _⟩ := Arena.append_ok_post hwf ha
          obtain ⟨st4, hfree⟩ := Arena.tryGetMutHere_free hsl3 rfl
          rw [show (1 : Nat) = 0 + 1 from rfl, Arena.tryGetMutFuel_succ_eq,
            if_pos hid2, hfree] at h
          replace h : ((.ok ({ val := v0, flag := BorrowFlag.free } : Slot T).val,
              idx2, st4) :
              Res (Sum BorrowMutErr BorrowErr) T × ArenaIdx × Store T) =
              (.err e, idx', st') := h
          simp at h

end Trove

namespace Trove

/-- A successful exclusive acquisition changes the length of no generation. -/
theorem Arena.tryGetMutHere_lenOf {T : Type} {st : Store T} {a : Arena}
    {idx : ArenaIdx} {v : T} {st' : Store T}
    (hh : Arena.tryGetMutHere st a idx = (.ok v, st')) (k : Nat) :
    Arena.lenOf st' a k = Arena.lenOf st a k := by
  obtain ⟨hnd, inner, inner1, hm, hg, hi, hst⟩ := Arena.tryGetMutHere_ok_decompose hh
  obtain ⟨hoff, s, hslot, hflag, hval, hinner1⟩ := ArenaInner.tryGetMut_ok hi
  have hlt := Store.lt_of_getInner? hg
  subst hst
  subst hinner1
  cases hmk : a.arenas k with
  | none => simp [Arena.lenOf, hmk]
  | some hk =>
    by_cases hke : hk = hnd
    · subst hke
      simp [Arena.lenOf, hmk, Store.getInner?_setInner_self _ hlt, hg,
        ArenaInner.setSlotAt_len]
    · simp [Arena.lenOf, hmk,
        Store.getInner?_setInner_other st _ (fun hc => hke hc.symm)]

/-- C1 (copy-on-write promotion): on a well-formed heap, a successful
try_get_mut through an index of a foreign generation reads the old
value, appends the clone at the next offset of the current generation,
rewrites the index of the caller to the newly minted one (whose
generation id is the current id of the arena), hands back an exclusive
reference to the
clone, and leaves the value stored in the original slot unchanged. -/
theorem C1_cow_promotion {T : Type} {st : Store T} {a : Arena}
    {idx idx' : ArenaIdx} {v : T} {st' : Store T} (hwf : Store.WF st)
    (hid : idx.arena ≠ a.id)
    (hok : Arena.tryGetMut st a idx = (.ok v, idx', st')) :
    idx'.arena = a.id ∧
    Arena.valAt st a idx = some v ∧
    Arena.valAt st' a idx' = some v ∧
    Arena.flagAt st' a idx' = some .writing ∧
    (∃ n, Arena.lenOf st a a.id = some n ∧ idx'.offset = n ∧
      Arena.lenOf st' a a.id = some (n + 1)) ∧
    Arena.valAt st' a idx = Arena.valAt st a idx := by
  obtain ⟨v0, st1, st3, hg1, ha, hid', hh⟩ := Arena.tryGetMut_cow_case hid hok
  obtain ⟨hnd, inner, inner1, hm, hg, hti, hst1⟩ := Arena.tryGet_ok_decompose hg1
  obtain ⟨hoff, s, f, hslot, hval, hbor, hinner1⟩ := ArenaInner.tryGet_ok hti
  have hslotArena : Arena.slotAt st a idx = some s := by
    simp only [Arena.slotAt, hm, hg, if_pos hoff]
    exact hslot
  obtain ⟨hid2, hslnew, hlen, hlen', hwf3, hpres⟩ := Arena.append_ok_post hwf ha
  have hpost := Arena.tryGetMutHere_ok_post hh
  have hv : v0 = v := by
    have h2 := hpost.2
    rw [hslnew] at h2
    have h3 : ({ val := v0, flag := BorrowFlag.free } : Slot T) =
        { val := v, flag := BorrowFlag.free } := by simpa using h2
    exact congrArg Slot.val h3
  have hpres2 : Arena.slotAt st' a idx = some s := by
    have hs3 : Arena.slotAt st3 a idx = some s := hpres idx s hslotArena
    refine Arena.tryGetMutHere_preserves hh hs3 ?_
    by_cases hmaps : a.arenas idx.arena = a.arenas a.id
    · left
      have hmcur : a.arenas a.id = some hnd := by rw [← hmaps]; exact hm
      have hleninner : Arena.lenOf st a a.id = some inner.len := by
        simp [Arena.lenOf, hmcur, hg]
      rw [hlen] at hleninner
      have h4 : idx'.offset = inner.len := by
        simpa using hleninner
      omega
    · right
      rw [hid']
      exact hmaps
  refine ⟨hid', ?_, ?_, ?_, ⟨idx'.offset, hlen, rfl, (Arena.tryGetMutHere_lenOf hh a.id).trans hlen'⟩, ?_⟩
  · simp only [Arena.valAt, hslotArena, Option.map_some']
    rw [hval, hv]
  · simp only [Arena.valAt, hpost.1, Option.map_some']
  · simp only [Arena.flagAt, hpost.1, Option.map_some']
  · simp only [Arena.valAt, hpres2, hslotArena]

/-- C4 (merge resolution): if idx_a reads value va through arena A,
idx_b reads vb through an independent arena B (the map of B has no entry
for the generation of idx_a), then both indices resolve through the
merged arena
to the same values. -/
theorem C4_merge_resolution {T : Type} {st : Store T} {a b : Arena}
    {idxa idxb : ArenaIdx} {va vb : T} {sta stb : Store T} (ctr : Nat)
    (hA : Arena.tryGet st a idxa = (.ok va, sta))
    (hB : Arena.tryGet st b idxb = (.ok vb, stb))
    (hdisj : b.arenas idxa.arena = none) :
    Arena.tryGet st (Arena.merge st a b ctr).1 idxa = (.ok va, sta) ∧
    Arena.tryGet st (Arena.merge st a b ctr).1 idxb = (.ok vb, stb) := by
  have hma : (Arena.merge st a b ctr).1.arenas idxa.arena =
      a.arenas idxa.arena := by
    show (match b.arenas idxa.arena with
      | some h => some h
      | none => a.arenas idxa.arena) = a.arenas idxa.arena
    rw [hdisj]
  have hmb : (Arena.merge st a b ctr).1.arenas idxb.arena =
      b.arenas idxb.arena := by
    obtain ⟨hnd, inner, inner1, hm, _, _, _⟩ := Arena.tryGet_ok_decompose hB
    show (match b.arenas idxb.arena with
      | some h => some h
      | none => a.arenas idxb.arena) = b.arenas idxb.arena
    rw [hm]
  constructor
  · rw [Arena.tryGet_map_congr hma]
    exact hA
  · rw [Arena.tryGet_map_congr hmb]
    exact hB

end Trove

namespace Trove

/-- Anatomy of a fork: sibling ids, the shared (extended) map both
siblings hold, and the two freshly allocated empty generations. -/
theorem Arena.clone_spec {T : Type} (st : Store T) (ctr : Nat) (a : Arena) :
    (Arena.clone st ctr a).1.1.id = ctr ∧
    (Arena.clone st ctr a).1.2.id = ctr + 1 ∧
    (∀ k, k ≠ ctr → k ≠ ctr + 1 →
      (Arena.clone st ctr a).1.1.arenas k = a.arenas k ∧
      (Arena.clone st ctr a).1.2.arenas k = a.arenas k) ∧
    (Arena.clone st ctr a).1.1.arenas ctr = some st.inners.length ∧
    (Arena.clone st ctr a).1.2.arenas ctr = some st.inners.length ∧
    (Arena.clone st ctr a).1.1.arenas (ctr + 1) = some (st.inners.length + 1) ∧
    (Arena.clone st ctr a).1.2.arenas (ctr + 1) = some (st.inners.length + 1) ∧
    (∀ h, h < st.inners.length →
      (Arena.clone st ctr a).2.1.getInner? h = st.getInner? h) ∧
    (Arena.clone st ctr a).2.1.getInner? st.inners.length =
      some ArenaInner.mkDefault ∧
    (Arena.clone st ctr a).2.1.getInner? (st.inners.length + 1) =
      some ArenaInner.mkDefault ∧
    (Arena.clone st ctr a).2.1.inners.length = st.inners.length + 2 := by
  have hlen1 : (st.inners ++ [(ArenaInner.mkDefault : ArenaInner T)]).length =
      st.inners.length + 1 := by simp
  refine ⟨rfl, rfl, ?_, ?_, ?_, ?_, ?_, ?_, ?_, ?_, ?_⟩
  · intro k hk1 hk2
    constructor
    · show GenMap.insert (GenMap.insert a.arenas ctr _) (ctr + 1) _ k = a.arenas k
      simp only [GenMap.insert]
      rw [if_neg hk2, if_neg hk1]
    · show GenMap.insert (GenMap.insert a.arenas ctr _) (ctr + 1) _ k = a.arenas k
      simp only [GenMap.insert]
      rw [if_neg hk2, if_neg hk1]
  · show GenMap.insert (GenMap.insert a.arenas ctr _) (ctr + 1) _ ctr =
      some st.inners.length
    simp only [GenMap.insert]
    rw [if_true, if_neg (by omega)]
  · show GenMap.insert (GenMap.insert a.arenas ctr _) (ctr + 1) _ ctr =
      some st.inners.length
    simp only [GenMap.insert]
    rw [if_true, if_neg (by omega)]
  · show GenMap.insert (GenMap.insert a.arenas ctr _) (ctr + 1) _ (ctr + 1) =
      some (st.inners.length + 1)
    simp only [GenMap.insert]
    rw [if_true, hlen1]
  · show GenMap.insert (GenMap.insert a.arenas ctr _) (ctr + 1) _ (ctr + 1) =
      some (st.inners.length + 1)
    simp only [GenMap.insert]
    rw [if_true, hlen1]
  · intro h hh
    show ((st.inners ++ [(ArenaInner.mkDefault : ArenaInner T)]) ++
      [ArenaInner.mkDefault]).get? h = st.inners.get? h
    rw [get?_append_lt (by rw [hlen1]; omega), get?_append_lt hh]
  · show ((st.inners ++ [(ArenaInner.mkDefault : ArenaInner T)]) ++
      [ArenaInner.mkDefault]).get? st.inners.length = some ArenaInner.mkDefault
    rw [get?_append_lt (by rw [hlen1]; omega)]
    exact get?_concat_self _ _
  · show ((st.inners ++ [(ArenaInner.mkDefault : ArenaInner T)]) ++
      [ArenaInner.mkDefault]).get? (st.inners.length + 1) = some ArenaInner.mkDefault
    rw [← hlen1]
    exact get?_concat_self _ _
  · show ((st.inners ++ [(ArenaInner.mkDefault : ArenaInner T)]) ++
      [ArenaInner.mkDefault]).length = st.inners.length + 2
    simp

/-- C3 amended: after a fork, both siblings' lineage maps contain
handles to BOTH fresh current generations (the same shared storages:
the two fresh generations are inserted into the shared map before it is
cloned), so a value appended by one sibling after the fork IS readable
through the map of the other sibling; isolation is provided by the
copy-on-write rule, not by map separation. -/
theorem C3_amended_shared_generations {T : Type} (st : Store T) (ctr : Nat)
    (a : Arena) :
    (Arena.clone st ctr a).1.1.arenas (Arena.clone st ctr a).1.2.id =
      some (st.inners.length + 1) ∧
    (Arena.clone st ctr a).1.2.arenas (Arena.clone st ctr a).1.1.id =
      some st.inners.length ∧
    (∀ v idx st3, Arena.append (Arena.clone st ctr a).2.1
        (Arena.clone st ctr a).1.1 v = (.ok idx, st3) →
      ∃ st4, Arena.tryGet st3 (Arena.clone st ctr a).1.2 idx = (.ok v, st4)) := by
  obtain ⟨hidA, hidB, hold, hcA, hcBA, hcA1, hcB1, holdst, hstL, hstL1, hlen2⟩ :=
    Arena.clone_spec st ctr a
  refine ⟨?_, ?_, ?_⟩
  · rw [hidB]
    exact hcA1
  · rw [hidA]
    exact hcBA
  · intro v idx st3 ha
    obtain ⟨hnd, inner, inner1, hmA, hgA, hiA, hst3⟩ := Arena.append_ok_decompose ha
    have hndL : hnd = st.inners.length := by
      rw [hidA, hcA] at hmA
      injection hmA with h2
      exact h2.symm
    have hinner : inner = ArenaInner.mkDefault := by
      rw [hndL, hstL] at hgA
      injection hgA with h2
      exact h2.symm
    subst hinner
    obtain ⟨hidx, hlen1a⟩ := ArenaInner.append_ok_basic hiA
    obtain ⟨hwf1, hsl, hpres⟩ := ArenaInner.append_ok_WF ArenaInner.mkDefault_WF hiA
    have hia : idx.arena = ctr := by
      rw [hidx]
      exact hidA
    have hmB : (Arena.clone st ctr a).1.2.arenas idx.arena = some hnd := by
      rw [hia, hcBA, hndL]
    have hg3 : st3.getInner? hnd = some inner1 := by
      rw [hst3]
      exact Store.getInner?_setInner_self _ (Store.lt_of_getInner? hgA)
    have hoffx : idx.offset = (ArenaInner.mkDefault : ArenaInner T).len := by
      rw [hidx]
    have hslot3 : Arena.slotAt st3 (Arena.clone st ctr a).1.2 idx =
        some { val := v, flag := .free } := by
      simp only [Arena.slotAt, hmB, hg3, hoffx]
      rw [if_pos (by rw [hlen1a]; omega)]
      exact hsl
    obtain ⟨st4, hget⟩ := Arena.tryGet_acquirable hslot3 rfl
    exact ⟨st4, hget⟩

/-- C2 (fork isolation): for an index minted before the fork (its
generation id predates the fresh ids of the fork and its handle lives in the
pre-fork heap), a successful get_mut through sibling A followed by a
write through the returned guard does not change the value observed
via get on sibling B. -/
theorem C2_fork_isolation {T : Type} {st : Store T} {ctr : Nat} {a : Arena}
    {idx idx2 : ArenaIdx} {h0 : Nat} {v : T} {st'' : Store T}
    (hk : a.arenas idx.arena = some h0) (hv : h0 < st.inners.length)
    (hfresh : idx.arena < ctr)
    (hok : Arena.tryGetMut (Arena.clone st ctr a).2.1
      (Arena.clone st ctr a).1.1 idx = (.ok v, idx2, st'')) :
    ∀ w, (Arena.tryGet (Arena.writeAt st'' (Arena.clone st ctr a).1.1 idx2 w)
        (Arena.clone st ctr a).1.2 idx).1 = (Arena.tryGet st a idx).1 ∧
      Arena.valAt (Arena.writeAt st'' (Arena.clone st ctr a).1.1 idx2 w)
        (Arena.clone st ctr a).1.2 idx = Arena.valAt st a idx := by
  obtain ⟨hidA, hidB, hold, hcA, hcBA, hcA1, hcB1, holdst, hstL, hstL1, hlen2⟩ :=
    Arena.clone_spec st ctr a
  have hmapA2 : (Arena.clone st ctr a).1.1.arenas idx.arena = some h0 :=
    ((hold idx.arena (by omega) (by omega)).1).trans hk
  have hmapB : (Arena.clone st ctr a).1.2.arenas idx.arena = some h0 :=
    ((hold idx.arena (by omega) (by omega)).2).trans hk
  have hidne : ¬ idx.arena = (Arena.clone st ctr a).1.1.id := by
    rw [hidA]
    omega
  obtain ⟨v0, st1, st3, hg1, ha, hic, hh⟩ := Arena.tryGetMut_cow_case hidne hok
  obtain ⟨hndA, innerA, innerA1, hmA, hgA, hiA, hst3⟩ := Arena.append_ok_decompose ha
  have hndAL : hndA = st.inners.length := by
    rw [hidA, hcA] at hmA
    injection hmA with h2
    exact h2.symm
  obtain ⟨hndH, innerH, innerH1, hmH, hgH, hiH, hst''⟩ :=
    Arena.tryGetMutHere_ok_decompose hh
  have hndHL : hndH = st.inners.length := by
    rw [hic, hidA, hcA] at hmH
    injection hmH with h2
    exact h2.symm
  have hmw : (Arena.clone st ctr a).1.1.arenas idx2.arena = some hndH := hmH
  intro w
  have hchain : (Arena.writeAt st'' (Arena.clone st ctr a).1.1 idx2 w).getInner? h0
      = st.getInner? h0 := by
    rw [Arena.writeAt_getInner_other hmw (by omega)]
    rw [hst'']
    rw [Store.getInner?_setInner_other _ _ (by omega)]
    rw [hst3]
    rw [Store.getInner?_setInner_other _ _ (by omega)]
    exact holdst h0 hv
  have hmm : (Arena.clone st ctr a).1.2.arenas idx.arena = a.arenas idx.arena :=
    hmapB.trans hk.symm
  have hgg : ∀ hnd, a.arenas idx.arena = some hnd →
      (Arena.writeAt st'' (Arena.clone st ctr a).1.1 idx2 w).getInner? hnd =
        st.getInner? hnd := by
    intro hnd hhnd
    rw [hk] at hhnd
    injection hhnd with h2
    rw [← h2]
    exact hchain
  constructor
  · exact Arena.tryGet_fst_congr hmm hgg
  · show (Arena.slotAt _ _ idx).map Slot.val = (Arena.slotAt _ _ idx).map Slot.val
    rw [Arena.slotAt_congr hmm hgg]

end Trove

namespace Trove

/-- C3 counterexample: in the concrete run, after forking `Ex.a0` the
lineage map of each sibling DOES contain a handle to the current
generation of the other sibling, and the value 7 appended through
sibling `aA` after the fork IS readable through the map of sibling
`aB`. -/
theorem C3_counterexample :
    (Ex.aA.arenas Ex.aB.id).isSome = true ∧
    (Ex.aB.arenas Ex.aA.id).isSome = true ∧
    Ex.app7.1 = .ok ⟨1, 0⟩ ∧
    (Arena.tryGet Ex.app7.2 Ex.aB ⟨1, 0⟩).1 = .ok 7 := by
  refine ⟨rfl, rfl, rfl, by decide⟩

/-- Concrete instance of the copy-on-write promotion theorem. -/
theorem C1_witness :
    (⟨1, 0⟩ : ArenaIdx).arena = Ex.aA.id ∧
    Arena.valAt Ex.st3 Ex.aA ⟨0, 0⟩ = some 13 ∧
    Arena.valAt Ex.st4 Ex.aA ⟨1, 0⟩ = some 13 ∧
    Arena.flagAt Ex.st4 Ex.aA ⟨1, 0⟩ = some .writing ∧
    (∃ n, Arena.lenOf Ex.st3 Ex.aA Ex.aA.id = some n ∧
      (⟨1, 0⟩ : ArenaIdx).offset = n ∧
      Arena.lenOf Ex.st4 Ex.aA Ex.aA.id = some (n + 1)) ∧
    Arena.valAt Ex.st4 Ex.aA ⟨0, 0⟩ = Arena.valAt Ex.st3 Ex.aA ⟨0, 0⟩ :=
  @C1_cow_promotion Nat Ex.st3 Ex.aA ⟨0, 0⟩ ⟨1, 0⟩ 13 Ex.st4
    (by decide) (by decide) rfl

/-- Concrete instance of the fork-isolation theorem (write 99 through
the promoted guard; sibling B still reads 13). -/
theorem C2_witness :
    (Arena.tryGet (Arena.writeAt Ex.st4 (Arena.clone Ex.st2 1 Ex.a0).1.1 ⟨1, 0⟩ 99)
        (Arena.clone Ex.st2 1 Ex.a0).1.2 ⟨0, 0⟩).1 =
      (Arena.tryGet Ex.st2 Ex.a0 ⟨0, 0⟩).1 ∧
    Arena.valAt (Arena.writeAt Ex.st4 (Arena.clone Ex.st2 1 Ex.a0).1.1 ⟨1, 0⟩ 99)
        (Arena.clone Ex.st2 1 Ex.a0).1.2 ⟨0, 0⟩ =
      Arena.valAt Ex.st2 Ex.a0 ⟨0, 0⟩ :=
  @C2_fork_isolation Nat Ex.st2 1 Ex.a0 ⟨0, 0⟩ ⟨1, 0⟩ 0 13 Ex.st4
    rfl (by decide) (by decide) rfl 99

/-- Concrete instance of the amended fork-sharing theorem. -/
theorem C3_witness :
    Ex.aA.arenas Ex.aB.id = some 2 ∧
    Ex.aB.arenas Ex.aA.id = some 1 ∧
    (∃ st4, Arena.tryGet Ex.app7.2 Ex.aB ⟨1, 0⟩ = (.ok 7, st4)) := by
  have H := C3_amended_shared_generations Ex.st2 1 Ex.a0
  exact ⟨H.1, H.2.1, H.2.2 7 ⟨1, 0⟩ Ex.app7.2 rfl⟩

/-- Concrete instance of the merge-resolution theorem. -/
theorem C4_witness :
    Arena.tryGet Ex.stB2 (Arena.merge Ex.stB2 Ex.a0 Ex.bA 10).1 ⟨0, 0⟩ =
      (.ok 13, (Arena.tryGet Ex.stB2 Ex.a0 ⟨0, 0⟩).2) ∧
    Arena.tryGet Ex.stB2 (Arena.merge Ex.stB2 Ex.a0 Ex.bA 10).1 ⟨5, 0⟩ =
      (.ok 99, (Arena.tryGet Ex.stB2 Ex.bA ⟨5, 0⟩).2) :=
  C4_merge_resolution 10 rfl rfl rfl

/-- Concrete instance of the mutual-exclusion theorem. -/
theorem C5_witness :
    Arena.tryGetMut Ex.stBusy Ex.a0 ⟨0, 0⟩ =
      (.err (Sum.inl .borrowMutError), ⟨0, 0⟩, Ex.stBusy) ∧
    Arena.tryGet Ex.stBusy Ex.a0 ⟨0, 0⟩ = (.err .borrowError, Ex.stBusy) ∧
    Arena.tryGetMut (Arena.dropMutAt Ex.stBusy Ex.a0 ⟨0, 0⟩) Ex.a0 ⟨0, 0⟩ =
      (.ok 13, ⟨0, 0⟩, Ex.stBusy) :=
  @C5_mutual_exclusion Nat Ex.st2 Ex.a0 ⟨0, 0⟩ ⟨0, 0⟩ 13 Ex.stBusy rfl

/-- Concrete instance of the error-frame theorem, at a heap holding a
live exclusive guard. -/
theorem C6_witness :
    Ex.stBusy = Ex.stBusy ∧ (⟨0, 0⟩ : ArenaIdx) = ⟨0, 0⟩ :=
  (C6_error_frame Ex.stBusy Ex.a0 ⟨0, 0⟩ (by decide)).2
    (Sum.inl .borrowMutError) ⟨0, 0⟩ Ex.stBusy rfl

/-- Concrete instance of the round-trip theorem. -/
theorem C7_witness :
    ∃ st'', Arena.tryGet Ex.st2 Ex.a0 ⟨0, 0⟩ = (.ok 13, st'') :=
  @C7_roundtrip Nat Ex.st1 Ex.a0 13 ⟨0, 0⟩ Ex.st2 (by decide) rfl

/-- Concrete instance of the index-scheme theorem. -/
theorem C8_witness :
    ArenaInner.index 5 = (0, 5) ∧
    ((ArenaInner.index 100).1 = 2 ↔
      32 * (2 ^ 2 - 1) ≤ 100 ∧ 100 < 32 * (2 ^ 2 - 1) + 32 * 2 ^ 2) ∧
    (ArenaInner.index 100).2 = 100 - 32 * (2 ^ 2 - 1) :=
  ⟨C8_index_scheme.1 5 (by decide),
   C8_index_scheme.2.2.2.1 2 100,
   C8_index_scheme.2.2.2.2 2 100 (by decide) (by decide)⟩

/-- Concrete instance of the guard-transition theorem. -/
theorem C9_witness :
    Arena.flagAt Ex.stBusy Ex.a0 ⟨0, 0⟩ = some .writing ∧
    Arena.flagAt (Arena.downgrade Ex.stBusy Ex.a0 ⟨0, 0⟩) Ex.a0 ⟨0, 0⟩ =
      some (.reading 0) ∧
    (Arena.intoOwned Ex.stBusy Ex.a0 ⟨0, 0⟩).1 = ⟨0, 0⟩ ∧
    Arena.flagAt (Arena.intoOwned Ex.stBusy Ex.a0 ⟨0, 0⟩).2 Ex.a0 ⟨0, 0⟩ =
      some .free :=
  @C9_guard_transitions Nat Ex.st2 Ex.a0 ⟨0, 0⟩ ⟨0, 0⟩ 13 Ex.stBusy rfl

end Trove
